import Mathlib

/-
  Verification of the FrameworkController reconciliation engine
  (src/pkg/controller/controller.go) against its natural-language
  specification.

  The data model and the controller operations are shallowly embedded below.
  Functions of the ci (apis/frameworkcontroller/v1) and common packages are
  not part of src/pkg/controller/controller.go; each such helper is modelled
  from the specification and carries a doc comment saying so.

  Machine int32/int64 values are modelled as Int (or Nat where the source
  value is a count that is never negative); overflow is not in scope for any
  of the verified properties.  Wall-clock instants (meta.Time) are modelled
  as Int seconds.
-/

set_option maxHeartbeats 1000000

namespace FrameworkControllerProof

/-- Execution type of a Framework, spec.executionType (Start or Stop). -/
inductive ExecutionType where
  | start
  | stop
deriving DecidableEq, Repr

/-- Completion codes enumerated by the spec (section 7); codes mapped from pod
termination signatures are collapsed into one signature-carrying constructor. -/
inductive CompletionCode where
  | succeeded
  | podCreationTimeout
  | configMapCreationTimeout
  | podExternalDeleted
  | configMapExternalDeleted
  | stopFrameworkRequested
  | deleteTaskRequested
  | frameworkAttemptCompletion
  | podSpecPermanentError
  | podFailed (signature : Int)
deriving DecidableEq, Repr

/-- Framework states of the framework state machine (spec section 4.E). -/
inductive FrameworkState where
  | frameworkAttemptCreationPending
  | frameworkAttemptCreationRequested
  | frameworkAttemptPreparing
  | frameworkAttemptRunning
  | frameworkAttemptDeletionPending
  | frameworkAttemptDeletionRequested
  | frameworkAttemptDeleting
  | frameworkAttemptCompleted
  | frameworkCompleted
deriving DecidableEq, Repr

/-- Task states of the task state machine (spec section 4.D). -/
inductive TaskState where
  | taskAttemptCreationPending
  | taskAttemptCreationRequested
  | taskAttemptPreparing
  | taskAttemptRunning
  | taskAttemptDeletionPending
  | taskAttemptDeletionRequested
  | taskAttemptDeleting
  | taskAttemptCompleted
  | taskCompleted
deriving DecidableEq, Repr

/-- CompletionStatus payload: code, diagnostics (phrase and type are functions
of the code and are omitted). -/
structure CompletionStatus where
  code : CompletionCode
  diagnostics : String
deriving DecidableEq, Repr

/-- ci.TaskAttemptCompletionStatus: a CompletionStatus plus an optional opaque
pod capture. -/
structure TaskAttemptCompletionStatus where
  completionStatus : CompletionStatus
  pod : Option String
deriving DecidableEq, Repr

/-- Modelled from the spec: code.NewTaskAttemptCompletionStatus wraps a
completion code and diagnostics, with no pod capture. -/
def newTaskAttemptCompletionStatus (code : CompletionCode) (diag : String) :
    TaskAttemptCompletionStatus :=
  { completionStatus := { code := code, diagnostics := diag }, pod := none }

/-- Retry bookkeeping shared by task and framework levels (spec section 3). -/
structure RetryPolicyStatus where
  totalRetriedCount : Nat
  accountableRetriedCount : Nat
  retryDelaySec : Option Int
deriving DecidableEq, Repr

/-- ci.TaskAttemptStatus (spec section 3): pod binding fields are collapsed to
the UID fields the controller reads. -/
structure TaskAttemptStatus where
  id : Nat
  podUID : Option String
  instanceUID : Option String
  completionStatus : Option TaskAttemptCompletionStatus
deriving DecidableEq, Repr

/-- ci.TaskStatus (spec section 3).  completionTime is meaningful only once the
task attempt has completed; the controller only reads it through selectors that
require completion. -/
structure TaskStatus where
  index : Nat
  state : TaskState
  transitionTime : Int
  completionTime : Int
  deletionPending : Bool
  retryPolicyStatus : RetryPolicyStatus
  attemptStatus : TaskAttemptStatus
deriving DecidableEq, Repr

/-- ci.TaskRoleStatus (spec section 3). -/
structure TaskRoleStatus where
  name : String
  podGracefulDeletionTimeoutSec : Option Int
  taskStatuses : List TaskStatus
deriving DecidableEq, Repr

/-- The kind of a framework-attempt completion: triggered by a failed task
threshold, by a succeeded task threshold, by all tasks completed, or directly
by a completion code. -/
inductive CompletionTriggerKind where
  | failedTaskTriggered
  | succeededTaskTriggered
  | completedTaskTriggered
  | byCode
deriving DecidableEq, Repr

/-- ci.FrameworkAttemptCompletionStatus: the trigger carries the task role name
and the triggering TaskStatus (the Go type keeps role name, task index and a
message rendered from them). -/
structure FrameworkAttemptCompletionStatus where
  kind : CompletionTriggerKind
  code : Option CompletionCode
  trigger : Option (String × TaskStatus)
  taskCount : Nat
  threshold : Int
  diagnostics : String
deriving DecidableEq, Repr

/-- ci.FrameworkAttemptStatus (spec section 3). -/
structure FrameworkAttemptStatus where
  id : Nat
  configMapUID : Option String
  instanceUID : Option String
  completionStatus : Option FrameworkAttemptCompletionStatus
  taskRoleStatuses : List TaskRoleStatus
deriving DecidableEq, Repr

/-- ci.FrameworkStatus (spec section 3). -/
structure FrameworkStatus where
  state : FrameworkState
  transitionTime : Int
  retryPolicyStatus : RetryPolicyStatus
  attemptStatus : FrameworkAttemptStatus
deriving DecidableEq, Repr

/-- Per-role completion policy thresholds; a threshold below 1 means off
(spec section 4.G), so the fields are signed. -/
structure FrameworkAttemptCompletionPolicy where
  minFailedTaskCount : Int
  minSucceededTaskCount : Int
deriving DecidableEq, Repr

/-- ci.TaskRoleSpec (spec section 3); the pod template is opaque to the
reconciliation logic verified here. -/
structure TaskRoleSpec where
  name : String
  taskNumber : Nat
  frameworkAttemptCompletionPolicy : FrameworkAttemptCompletionPolicy
  podGracefulDeletionTimeoutSec : Option Int
deriving DecidableEq, Repr

/-- ci.FrameworkSpec (spec section 3); retry policy fields live with the retry
evaluator and are passed to the embedded functions as a RetryDecision. -/
structure FrameworkSpec where
  executionType : ExecutionType
  taskRoles : List TaskRoleSpec
deriving DecidableEq, Repr

/-- A Framework object: metadata the controller reads plus spec and status.
The status is modelled non-optional: all verified operations run after the
status has been initialized (controller.go line 708 handles the nil case by
only creating a fresh status). -/
structure Framework where
  fNamespace : String
  fName : String
  uid : String
  deletionTimestamp : Option Int
  spec : FrameworkSpec
  status : FrameworkStatus
deriving DecidableEq, Repr

/-- Modelled from the spec (section 3): the Framework key is namespace plus
name. -/
def Framework.key (f : Framework) : String :=
  f.fNamespace ++ "/" ++ f.fName

/-- Modelled from the spec (section 4.E): a framework is completing iff its
state is AttemptDeletionPending, AttemptDeletionRequested, AttemptDeleting or
AttemptCompleted (ci.Framework.IsCompleting is not under src). -/
def Framework.isCompleting (f : Framework) : Bool :=
  f.status.state == FrameworkState.frameworkAttemptDeletionPending ||
  f.status.state == FrameworkState.frameworkAttemptDeletionRequested ||
  f.status.state == FrameworkState.frameworkAttemptDeleting ||
  f.status.state == FrameworkState.frameworkAttemptCompleted

/-- Modelled from the spec: ci.Framework.GetTaskRoleStatus returns the
TaskRoleStatus with the given name, if any. -/
def Framework.getTaskRoleStatus (f : Framework) (name : String) : Option TaskRoleStatus :=
  f.status.attemptStatus.taskRoleStatuses.find? (fun trs => trs.name == name)

/-- Modelled from the spec: ci.Framework.GetTaskRoleSpec returns the
TaskRoleSpec with the given name, if any. -/
def FrameworkSpec.getTaskRoleSpec (s : FrameworkSpec) (name : String) : Option TaskRoleSpec :=
  s.taskRoles.find? (fun trs => trs.name == name)

/-- Modelled from the spec: the total task count declared by the spec is the
sum of the taskNumber of all task roles. -/
def FrameworkSpec.getTotalTaskCountSpec (s : FrameworkSpec) : Nat :=
  (s.taskRoles.map (fun trs => trs.taskNumber)).sum

/-- The completion code recorded in a task's attempt completion status. -/
def TaskStatus.completionCode (ts : TaskStatus) : Option CompletionCode :=
  ts.attemptStatus.completionStatus.map (fun cs => cs.completionStatus.code)

/-- Modelled from the spec: a task is completed iff it has reached the terminal
TaskCompleted state.  The boolean excludes DeletionPending (ScaleDown) tasks,
matching the controller comment that the spec fully contains the
not-DeletionPending tasks of the status, hence completedTaskCount never
exceeds totalTaskCount (controller.go lines 1532-1534). -/
def TaskStatus.isCompleted (ts : TaskStatus) (excludeDeletionPending : Bool) : Bool :=
  (!(excludeDeletionPending && ts.deletionPending)) &&
  ts.state == TaskState.taskCompleted

/-- Modelled from the spec: a completed task succeeded iff its recorded
completion code is Succeeded. -/
def TaskStatus.isSucceeded (ts : TaskStatus) (excludeDeletionPending : Bool) : Bool :=
  ts.isCompleted excludeDeletionPending && ts.completionCode == some CompletionCode.succeeded

/-- Modelled from the spec: a completed task failed iff its recorded completion
code is not Succeeded. -/
def TaskStatus.isFailed (ts : TaskStatus) (excludeDeletionPending : Bool) : Bool :=
  ts.isCompleted excludeDeletionPending && ts.completionCode != some CompletionCode.succeeded

/-- ci.BindIDP binds the exclude-deletion-pending flag of a task predicate,
yielding a selector (controller.go lines 1476-1478 use it with true). -/
def BindIDP (sel : TaskStatus → Bool → Bool) (excludeDeletionPending : Bool) :
    TaskStatus → Bool :=
  fun ts => sel ts excludeDeletionPending

def failedTaskSelector : TaskStatus → Bool := BindIDP TaskStatus.isFailed true

def succeededTaskSelector : TaskStatus → Bool := BindIDP TaskStatus.isSucceeded true

def completedTaskSelector : TaskStatus → Bool := BindIDP TaskStatus.isCompleted true

/-- Modelled from the spec: ci.TaskRoleStatus.GetTaskCountStatus counts the
tasks of the role matching the selector. -/
def TaskRoleStatus.getTaskCountStatus (trs : TaskRoleStatus) (sel : TaskStatus → Bool) : Nat :=
  (trs.taskStatuses.filter sel).length

/-- Modelled from the spec: ci.Framework.GetTaskCountStatus counts the matching
tasks across all task roles of the status. -/
def Framework.getTaskCountStatus (f : Framework) (sel : TaskStatus → Bool) : Nat :=
  (f.status.attemptStatus.taskRoleStatuses.map
    (fun trs => trs.getTaskCountStatus sel)).sum

/-- The completion-time order on task statuses. -/
def timeLE (a b : TaskStatus) : Prop := a.completionTime ≤ b.completionTime

instance : DecidableRel timeLE := fun a b => Int.decLe a.completionTime b.completionTime

instance : IsTotal TaskStatus timeLE := ⟨fun a b => Int.le_total a.completionTime b.completionTime⟩

instance : IsTrans TaskStatus timeLE := ⟨fun _ _ _ h1 h2 => le_trans h1 h2⟩

/-- Insertion sort of task statuses by completion time (ascending). -/
def sortByCompletionTime (l : List TaskStatus) : List TaskStatus :=
  l.insertionSort timeLE

/-- Modelled from the spec (section 4.G): the k-th earliest-completed task of
the role among those matching the selector
(ci.TaskRoleStatus.CompletionTimeOrderedTaskStatus is not under src). -/
def TaskRoleStatus.completionTimeOrderedTaskStatus (trs : TaskRoleStatus)
    (sel : TaskStatus → Bool) (k : Nat) : Option TaskStatus :=
  (sortByCompletionTime (trs.taskStatuses.filter sel)).get? k

/-- Replace the first element satisfying the name match, keeping the rest. -/
def updateFirstRole (name : String) (g : TaskRoleStatus → TaskRoleStatus) :
    List TaskRoleStatus → List TaskRoleStatus
  | [] => []
  | trs :: rest =>
    if trs.name == name then g trs :: rest
    else trs :: updateFirstRole name g rest

/-- Apply a function to the element at the given position, if present. -/
def modifyAt (g : α → α) : Nat → List α → List α
  | _, [] => []
  | 0, a :: rest => g a :: rest
  | n + 1, a :: rest => a :: modifyAt g n rest

/-- Modelled from the spec: ci.Framework.TaskStatus resolves a task by role
name and task index (task index equals its position in the role). -/
def Framework.taskStatusAt (f : Framework) (roleName : String) (i : Nat) :
    Option TaskStatus :=
  (f.getTaskRoleStatus roleName).bind (fun trs => trs.taskStatuses.get? i)

/-- Update the task resolved by role name and index in place. -/
def Framework.updateTask (f : Framework) (roleName : String) (i : Nat)
    (g : TaskStatus → TaskStatus) : Framework :=
  { f with status := { f.status with attemptStatus := { f.status.attemptStatus with
      taskRoleStatuses := updateFirstRole roleName
        (fun trs => { trs with taskStatuses := modifyAt g i trs.taskStatuses })
        f.status.attemptStatus.taskRoleStatuses } } }

/-- Modelled from the spec: ci.Framework.TransitionTaskState sets the task
state and stamps the transition time; the completion time is stamped when the
task attempt completes. -/
def Framework.transitionTaskState (f : Framework) (roleName : String) (i : Nat)
    (s : TaskState) (now : Int) : Framework :=
  f.updateTask roleName i (fun ts =>
    { ts with
      state := s
      transitionTime := now
      completionTime :=
        if s == TaskState.taskAttemptCompleted then now else ts.completionTime })

/-- Modelled from the spec: ci.Framework.TransitionFrameworkState sets the
framework state and stamps the transition time. -/
def Framework.transitionFrameworkState (f : Framework) (s : FrameworkState)
    (now : Int) : Framework :=
  { f with status := { f.status with state := s, transitionTime := now } }

/-- Embedding of completeTaskAttempt (controller.go lines 2190-2232):
the CompletionStatus is only assigned while nil, then the task transitions to
TaskAttemptCompleted (force) or TaskAttemptDeletionPending (non-force).
Queue side effects are omitted. -/
def completeTaskAttempt (f : Framework) (roleName : String) (i : Nat)
    (now : Int) (force : Bool)
    (completionStatus : Option TaskAttemptCompletionStatus) : Framework :=
  let f1 := f.updateTask roleName i (fun ts =>
    if ts.attemptStatus.completionStatus == none then
      { ts with attemptStatus :=
        { ts.attemptStatus with completionStatus := completionStatus } }
    else ts)
  if force then
    f1.transitionTaskState roleName i TaskState.taskAttemptCompleted now
  else
    f1.transitionTaskState roleName i TaskState.taskAttemptDeletionPending now

/-- The default task-attempt completion status cascaded by
completeFrameworkAttempt (controller.go lines 2245-2254). -/
def defaultTaskCompletion : TaskAttemptCompletionStatus :=
  { completionStatus :=
      { code := CompletionCode.frameworkAttemptCompletion,
        diagnostics := "Stop to complete current FrameworkAttempt" },
    pod := none }

/-- Cascade step of completeFrameworkAttempt: give a task the default
completion status while its own is nil (controller.go lines 2245-2254). -/
def cascadeTask (ts : TaskStatus) : TaskStatus :=
  if ts.attemptStatus.completionStatus == none then
    { ts with attemptStatus :=
      { ts.attemptStatus with completionStatus := some defaultTaskCompletion } }
  else ts

/-- Force step of completeFrameworkAttempt (controller.go lines 2257-2269):
every not-yet-terminal task jumps to TaskAttemptCompleted (via
completeTaskAttempt with nil status, inlined per task) and then to
TaskCompleted with its retry delay cleared. -/
def forceCompleteTask (now : Int) (ts : TaskStatus) : TaskStatus :=
  if ts.state != TaskState.taskCompleted then
    let ts1 :=
      if ts.state != TaskState.taskAttemptCompleted then
        let ts0 :=
          if ts.attemptStatus.completionStatus == none then
            { ts with attemptStatus :=
              { ts.attemptStatus with completionStatus := none } }
          else ts
        { ts0 with
          state := TaskState.taskAttemptCompleted
          transitionTime := now
          completionTime := now }
      else ts
    { ts1 with
      retryPolicyStatus := { ts1.retryPolicyStatus with retryDelaySec := none }
      state := TaskState.taskCompleted
      transitionTime := now }
  else ts

/-- Apply a task transformation to every task of every role of the status. -/
def Framework.mapTasks (f : Framework) (g : TaskStatus → TaskStatus) : Framework :=
  { f with status := { f.status with attemptStatus := { f.status.attemptStatus with
      taskRoleStatuses := f.status.attemptStatus.taskRoleStatuses.map
        (fun trs => { trs with taskStatuses := trs.taskStatuses.map g }) } } }

/-- Embedding of completeFrameworkAttempt (controller.go lines 2234-2299):
assign the attempt CompletionStatus while nil, cascade the default status into
not-yet-completed task attempts, then either force-complete every task and
enter FrameworkAttemptCompleted, or enter FrameworkAttemptDeletionPending.
Queue side effects are omitted. -/
def completeFrameworkAttempt (f : Framework) (now : Int) (force : Bool)
    (completionStatus : Option FrameworkAttemptCompletionStatus) : Framework :=
  let f1 :=
    if f.status.attemptStatus.completionStatus == none then
      { f with status := { f.status with attemptStatus :=
        { f.status.attemptStatus with completionStatus := completionStatus } } }
    else f
  let f2 := f1.mapTasks cascadeTask
  if force then
    (f2.mapTasks (forceCompleteTask now)).transitionFrameworkState
      FrameworkState.frameworkAttemptCompleted now
  else
    f2.transitionFrameworkState FrameworkState.frameworkAttemptDeletionPending now

/-- Embedding of updateFrameworkObj (controller.go lines 273-288): the
Framework keys the update handler enqueues.  A UID change is decomposed into a
delete of the old object and an add of the new one; otherwise only a spec
change enqueues. -/
def updateFrameworkObj (oldF newF : Framework) : List String :=
  if oldF.uid != newF.uid then [oldF.key, newF.key]
  else if oldF.spec = newF.spec then []
  else [newF.key]

/-- Outcome of a remote API call, as observed by the controller: success,
a not-found error, or any other error. -/
inductive ApiResult (α : Type) where
  | ok (value : α)
  | notFound
  | otherError (message : String)
deriving DecidableEq, Repr

/-- The remote object observed by a post-delete confirmation get. -/
structure RemoteObject where
  uid : String
  deletionTimestamp : Option Int
deriving DecidableEq, Repr

/-- Embedding of deleteFramework (controller.go lines 1298-1337).  The remote
delete and the post-delete confirmation get are external calls whose outcomes
are inputs here. -/
def deleteFramework (f : Framework) (confirm : Bool)
    (deleteResult : ApiResult Unit) (getResult : ApiResult RemoteObject) :
    Except String Unit :=
  match deleteResult with
  | ApiResult.notFound => Except.ok ()
  | ApiResult.otherError m => Except.error ("Failed to delete Framework: " ++ m)
  | ApiResult.ok _ =>
    if confirm then
      match getResult with
      | ApiResult.notFound => Except.ok ()
      | ApiResult.otherError m =>
        Except.error ("Framework cannot be got from remote: " ++ m)
      | ApiResult.ok remoteF =>
        if f.uid == remoteF.uid then
          Except.error "Framework still exist after deletion"
        else Except.ok ()
    else Except.ok ()

/-- Embedding of deleteConfigMap (controller.go lines 1396-1433). -/
def deleteConfigMap (cmUID : String) (confirm : Bool)
    (deleteResult : ApiResult Unit) (getResult : ApiResult RemoteObject) :
    Except String Unit :=
  match deleteResult with
  | ApiResult.notFound => Except.ok ()
  | ApiResult.otherError m => Except.error ("Failed to delete ConfigMap: " ++ m)
  | ApiResult.ok _ =>
    if confirm then
      match getResult with
      | ApiResult.notFound => Except.ok ()
      | ApiResult.otherError m =>
        Except.error ("ConfigMap cannot be got from remote: " ++ m)
      | ApiResult.ok remoteCM =>
        if cmUID == remoteCM.uid then
          Except.error "ConfigMap still exist after deletion"
        else Except.ok ()
    else Except.ok ()

/-- Delete options of a child delete request: the UID precondition and the
grace period (spec section 6: force deletion uses grace-period zero). -/
structure DeleteOptions where
  preconditionUID : String
  gracePeriodSeconds : Option Int
deriving DecidableEq, Repr

/-- The delete options built by deletePod (controller.go lines 2124-2127). -/
def deletePodOptions (podUID : String) (force : Bool) : DeleteOptions :=
  { preconditionUID := podUID,
    gracePeriodSeconds := if force then some 0 else none }

/-- Embedding of deletePod (controller.go lines 2116-2157); the force flag
only shapes the delete options (deletePodOptions), the outcome handling is
identical. -/
def deletePod (podUID : String) (confirm : Bool) (_force : Bool)
    (deleteResult : ApiResult Unit) (getResult : ApiResult RemoteObject) :
    Except String Unit :=
  match deleteResult with
  | ApiResult.notFound => Except.ok ()
  | ApiResult.otherError m => Except.error ("Failed to delete Pod: " ++ m)
  | ApiResult.ok _ =>
    if confirm then
      match getResult with
      | ApiResult.notFound => Except.ok ()
      | ApiResult.otherError m =>
        Except.error ("Pod cannot be got from remote: " ++ m)
      | ApiResult.ok remotePod =>
        if podUID == remotePod.uid then
          Except.error "Pod still exist after deletion"
        else Except.ok ()
    else Except.ok ()

/-- Modelled from the spec (section 4.I): the remaining duration is
startTime + timeoutSec - now, and the check is timed out iff it is not
positive.  A nil timeout never times out. -/
def isTimeout (startTime : Int) (timeoutSec : Option Int) (now : Int) : Bool :=
  match timeoutSec with
  | none => false
  | some t => startTime + t - now ≤ 0

/-- Embedding of enqueueFrameworkRetryDelayTimeoutCheck (controller.go lines
640-649 with 676-696): true means the caller keeps waiting; the re-enqueue
side effect is omitted. -/
def enqueueFrameworkRetryDelayTimeoutCheck (f : Framework) (now : Int)
    (failIfTimeout : Bool) : Bool :=
  if f.status.state != FrameworkState.frameworkAttemptCompleted then false
  else
    !(isTimeout f.status.transitionTime f.status.retryPolicyStatus.retryDelaySec now
      && failIfTimeout)

/-- Embedding of enqueueTaskAttemptCreationTimeoutCheck (controller.go lines
627-638 with 676-696): true means the caller keeps waiting. -/
def enqueueTaskAttemptCreationTimeoutCheck (ts : TaskStatus)
    (cfgTimeout : Option Int) (now : Int) (failIfTimeout : Bool) : Bool :=
  if ts.state != TaskState.taskAttemptCreationRequested then false
  else !(isTimeout ts.transitionTime cfgTimeout now && failIfTimeout)

/-- Result of ci.RetryPolicy.ShouldRetry (spec section 4.H).  The evaluator
itself is not under src; the embedded sync functions take the decision as an
input, exactly as syncFrameworkState consumes it (controller.go line 1135). -/
structure RetryDecision where
  shouldRetry : Bool
  isAccountable : Bool
  delaySec : Int
deriving DecidableEq, Repr

/-- Modelled from the spec (section 4.E): ci.Framework.NewFrameworkAttemptStatus
mints a fresh attempt status carrying the attempt id. -/
def newFrameworkAttemptStatus (attemptID : Nat) : FrameworkAttemptStatus :=
  { id := attemptID
    configMapUID := none
    instanceUID := none
    completionStatus := none
    taskRoleStatuses := [] }

/-- How the FrameworkAttemptCompleted branch of syncFrameworkState returned. -/
inductive FrameworkSyncOutcome where
  | completedFramework
  | waitingRetryDelay
  | retried
deriving DecidableEq, Repr

/-- The retryFramework block of syncFrameworkState (controller.go lines
1179-1203): bump the counters, clear the delay, mint a new attempt status and
go back to FrameworkAttemptCreationPending. -/
def retryFramework (f : Framework) (rd : RetryDecision) (now : Int) :
    Framework × FrameworkSyncOutcome :=
  let rp := f.status.retryPolicyStatus
  let total := rp.totalRetriedCount + 1
  let f1 := { f with status := { f.status with
      retryPolicyStatus :=
        { totalRetriedCount := total
          accountableRetriedCount :=
            if rd.isAccountable then rp.accountableRetriedCount + 1
            else rp.accountableRetriedCount
          retryDelaySec := none }
      attemptStatus := newFrameworkAttemptStatus total } }
  (f1.transitionFrameworkState FrameworkState.frameworkAttemptCreationPending now,
   FrameworkSyncOutcome.retried)

/-- The scheduled-retry part of syncFrameworkState (controller.go lines
1165-1203), entered with RetryDelaySec non-nil: Stop bypasses the delay check,
otherwise the sync waits until the delay times out, then retries. -/
def retryOrWait (f : Framework) (rd : RetryDecision) (now : Int) :
    Framework × FrameworkSyncOutcome :=
  if f.spec.executionType == ExecutionType.stop then
    retryFramework f rd now
  else if enqueueFrameworkRetryDelayTimeoutCheck f now true then
    (f, FrameworkSyncOutcome.waitingRetryDelay)
  else
    retryFramework f rd now

/-- Embedding of the FrameworkAttemptCompleted branch of syncFrameworkState
(controller.go lines 1133-1204): decide retry-or-terminate when no retry is
scheduled yet, then execute or wait for the scheduled retry. -/
def attemptToRetryFramework (f : Framework) (rd : RetryDecision) (now : Int) :
    Framework × FrameworkSyncOutcome :=
  match f.status.retryPolicyStatus.retryDelaySec with
  | none =>
    if rd.shouldRetry then
      retryOrWait
        { f with status := { f.status with retryPolicyStatus :=
          { f.status.retryPolicyStatus with retryDelaySec := some rd.delaySec } } }
        rd now
    else
      (f.transitionFrameworkState FrameworkState.frameworkCompleted now,
       FrameworkSyncOutcome.completedFramework)
  | some _ => retryOrWait f rd now

/-- Modelled from the spec: ci.NewFailedTaskTriggeredCompletionStatus records
the trigger task and role with the counts that fired the policy. -/
def newFailedTaskTriggeredCompletionStatus (trigger : TaskStatus)
    (roleName : String) (failedTaskCount : Nat) (minFailedTaskCount : Int) :
    FrameworkAttemptCompletionStatus :=
  { kind := CompletionTriggerKind.failedTaskTriggered
    code := none
    trigger := some (roleName, trigger)
    taskCount := failedTaskCount
    threshold := minFailedTaskCount
    diagnostics := "" }

/-- Modelled from the spec: ci.NewSucceededTaskTriggeredCompletionStatus. -/
def newSucceededTaskTriggeredCompletionStatus (trigger : TaskStatus)
    (roleName : String) (succeededTaskCount : Nat) (minSucceededTaskCount : Int) :
    FrameworkAttemptCompletionStatus :=
  { kind := CompletionTriggerKind.succeededTaskTriggered
    code := none
    trigger := some (roleName, trigger)
    taskCount := succeededTaskCount
    threshold := minSucceededTaskCount
    diagnostics := "" }

/-- Modelled from the spec: ci.NewCompletedTaskTriggeredCompletionStatus; its
trigger is nil when every spec role declares zero tasks. -/
def newCompletedTaskTriggeredCompletionStatus
    (trigger : Option (String × TaskStatus))
    (completedTaskCount totalTaskCount : Nat) : FrameworkAttemptCompletionStatus :=
  { kind := CompletionTriggerKind.completedTaskTriggered
    code := none
    trigger := trigger
    taskCount := completedTaskCount
    threshold := (totalTaskCount : Int)
    diagnostics := "" }

/-- Modelled from the spec: code.NewFrameworkAttemptCompletionStatus wraps a
completion code and diagnostics. -/
def newCodeFrameworkAttemptCompletionStatus (code : CompletionCode)
    (diag : String) : FrameworkAttemptCompletionStatus :=
  { kind := CompletionTriggerKind.byCode
    code := some code
    trigger := none
    taskCount := 0
    threshold := 0
    diagnostics := diag }

/-- Per-role failed-task trigger candidate of
syncFrameworkAttemptCompletionPolicy (controller.go lines 1494-1506): when the
threshold is on (at least 1) and met, the threshold-th earliest-completed
failed task of the role. -/
def roleFailedTrigger (f : Framework) (trSpec : TaskRoleSpec) :
    Option (Int × FrameworkAttemptCompletionStatus) :=
  match f.getTaskRoleStatus trSpec.name with
  | none => none
  | some trs =>
    let mF := trSpec.frameworkAttemptCompletionPolicy.minFailedTaskCount
    if 1 ≤ mF then
      let cnt := trs.getTaskCountStatus failedTaskSelector
      if mF ≤ (cnt : Int) then
        match trs.completionTimeOrderedTaskStatus failedTaskSelector (mF - 1).toNat with
        | some trigger =>
          some (trigger.completionTime,
            newFailedTaskTriggeredCompletionStatus trigger trSpec.name cnt mF)
        | none => none
      else none
    else none

/-- Per-role succeeded-task trigger candidate of
syncFrameworkAttemptCompletionPolicy (controller.go lines 1508-1520). -/
def roleSucceededTrigger (f : Framework) (trSpec : TaskRoleSpec) :
    Option (Int × FrameworkAttemptCompletionStatus) :=
  match f.getTaskRoleStatus trSpec.name with
  | none => none
  | some trs =>
    let mS := trSpec.frameworkAttemptCompletionPolicy.minSucceededTaskCount
    if 1 ≤ mS then
      let cnt := trs.getTaskCountStatus succeededTaskSelector
      if mS ≤ (cnt : Int) then
        match trs.completionTimeOrderedTaskStatus succeededTaskSelector (mS - 1).toNat with
        | some trigger =>
          some (trigger.completionTime,
            newSucceededTaskTriggeredCompletionStatus trigger trSpec.name cnt mS)
        | none => none
      else none
    else none

/-- Accumulator update of the first-trigger loop (controller.go lines
1500-1504 and 1514-1518): a candidate replaces the current first trigger iff
there is none yet or the candidate completed strictly earlier. -/
def updCand (acc cand : Option (Int × FrameworkAttemptCompletionStatus)) :
    Option (Int × FrameworkAttemptCompletionStatus) :=
  match cand with
  | none => acc
  | some c =>
    match acc with
    | none => some c
    | some a => if c.1 < a.1 then some c else some a

/-- First phase of syncFrameworkAttemptCompletionPolicy (controller.go lines
1480-1521): fold the per-role threshold candidates keeping the earliest
completion time (ties keep the earlier-iterated candidate). -/
def completionPolicyFirstTrigger (f : Framework) :
    Option (Int × FrameworkAttemptCompletionStatus) :=
  f.spec.taskRoles.foldl
    (fun acc trSpec =>
      updCand (updCand acc (roleFailedTrigger f trSpec)) (roleSucceededTrigger f trSpec))
    none

/-- The candidate triggers as stated by the spec (section 4.G): every per-role
threshold candidate, in role order with failed before succeeded. -/
def completionPolicyCandidates (f : Framework) :
    List (Int × FrameworkAttemptCompletionStatus) :=
  f.spec.taskRoles.flatMap (fun trSpec =>
    (roleFailedTrigger f trSpec).toList ++ (roleSucceededTrigger f trSpec).toList)

/-- Per-role candidate of the all-tasks-completed phase (controller.go lines
1540-1562): for a role with a positive task number, its taskNumber-th
earliest-completed task. -/
def roleLastCompleted (f : Framework) (trSpec : TaskRoleSpec) :
    Option (String × TaskStatus) :=
  match f.getTaskRoleStatus trSpec.name with
  | none => none
  | some trs =>
    if trSpec.taskNumber == 0 then none
    else
      match trs.completionTimeOrderedTaskStatus completedTaskSelector
          (trSpec.taskNumber - 1) with
      | some t => some (trSpec.name, t)
      | none => none

/-- Accumulator update of the last-completed loop (controller.go lines
1556-1561): a role candidate replaces the current one iff there is none yet or
it completed strictly later. -/
def updLast (acc cand : Option (String × TaskStatus)) :
    Option (String × TaskStatus) :=
  match cand with
  | none => acc
  | some c =>
    match acc with
    | none => some c
    | some a => if a.2.completionTime < c.2.completionTime then some c else some a

/-- The last-completed trigger of the all-tasks-completed phase
(controller.go lines 1538-1562). -/
def completionPolicyLastTrigger (f : Framework) : Option (String × TaskStatus) :=
  f.spec.taskRoles.foldl (fun acc trSpec => updLast acc (roleLastCompleted f trSpec)) none

/-- All completed (selector-matching) tasks of the spec roles, tagged with
their role name; the reference set for the latest-completed trigger. -/
def completedTasksOfSpecRoles (f : Framework) : List (String × TaskStatus) :=
  f.spec.taskRoles.flatMap (fun trSpec =>
    match f.getTaskRoleStatus trSpec.name with
    | some trs =>
      (trs.taskStatuses.filter completedTaskSelector).map (fun t => (trSpec.name, t))
    | none => [])

/-- Embedding of syncFrameworkAttemptCompletionPolicy (controller.go lines
1470-1582): a per-role threshold trigger completes the attempt (non-forced)
with the earliest candidate; otherwise, when every declared task has
completed, the attempt completes (non-forced) with the latest-completed
trigger.  Returns the synced framework and whether the policy fired. -/
def syncFrameworkAttemptCompletionPolicy (f : Framework) (now : Int) :
    Framework × Bool :=
  match completionPolicyFirstTrigger f with
  | some (_, cs) => (completeFrameworkAttempt f now false (some cs), true)
  | none =>
    let totalTaskCount := f.spec.getTotalTaskCountSpec
    let completedTaskCount := f.getTaskCountStatus completedTaskSelector
    if totalTaskCount ≤ completedTaskCount then
      let cs := newCompletedTaskTriggeredCompletionStatus
        (completionPolicyLastTrigger f) completedTaskCount totalTaskCount
      (completeFrameworkAttempt f now false (some cs), true)
    else (f, false)

/-- Embedding of the prologue of the Preparing/Running/DeletionRequested/
Deleting branch of syncFrameworkState (controller.go lines 1260-1276): a Stop
request completes the attempt (non-forced) with StopFrameworkRequested, then
the completion policy runs only while still not completing. -/
def syncFrameworkStateStopThenPolicy (f : Framework) (now : Int) : Framework :=
  let f1 :=
    if !f.isCompleting && f.spec.executionType == ExecutionType.stop then
      completeFrameworkAttempt f now false
        (some (newCodeFrameworkAttemptCompletionStatus
          CompletionCode.stopFrameworkRequested
          "User has requested to stop the Framework"))
    else f
  if !f1.isCompleting then (syncFrameworkAttemptCompletionPolicy f1 now).1 else f1

/-- Remote actions emitted by the embedded syncTaskState branch. -/
inductive TaskSyncAction where
  | deletePodRemote (options : DeleteOptions) (confirm : Bool)
  | completeTaskAttemptCall (force : Bool) (code : CompletionCode)
  | waitTimeoutCheck
deriving DecidableEq, Repr

/-- Embedding of the syncTaskState branch for a task in
TaskAttemptCreationRequested whose pod is absent from the local cache
(controller.go lines 1642-1677): a deletion-pending task completes with
DeleteTaskRequested; otherwise the sync waits for the creation timeout, then
the pod is deleted in remote (confirmed, non-forced) and, only if that delete
returns no error, the task attempt is force-completed with PodCreationTimeout.
Returns the updated framework, the emitted remote actions and the sync error
if any. -/
def syncTaskStateCreationRequestedPodAbsent (f : Framework) (roleName : String)
    (i : Nat) (cfgTimeout : Option Int) (now : Int)
    (deleteResult : ApiResult Unit) (getResult : ApiResult RemoteObject) :
    Framework × List TaskSyncAction × Option String :=
  match f.taskStatusAt roleName i with
  | none => (f, [], some "task not found")
  | some ts =>
    let codeChosen : Option CompletionCode :=
      if ts.deletionPending then some CompletionCode.deleteTaskRequested
      else if enqueueTaskAttemptCreationTimeoutCheck ts cfgTimeout now true then none
      else some CompletionCode.podCreationTimeout
    match codeChosen with
    | none => (f, [TaskSyncAction.waitTimeoutCheck], none)
    | some code =>
      let podUID := ts.attemptStatus.podUID.getD ""
      let opts := deletePodOptions podUID false
      match deletePod podUID true false deleteResult getResult with
      | Except.error e => (f, [TaskSyncAction.deletePodRemote opts true], some e)
      | Except.ok _ =>
        (completeTaskAttempt f roleName i now true
          (some (newTaskAttemptCompletionStatus code "")),
         [TaskSyncAction.deletePodRemote opts true,
          TaskSyncAction.completeTaskAttemptCall true code],
         none)

/-- Modelled from the spec (section 4.F): ci.Framework.NewTaskStatus creates a
fresh CreationPending task slot for the given index. -/
def newTaskStatus (index : Nat) (now : Int) : TaskStatus :=
  { index := index
    state := TaskState.taskAttemptCreationPending
    transitionTime := now
    completionTime := 0
    deletionPending := false
    retryPolicyStatus :=
      { totalRetriedCount := 0, accountableRetriedCount := 0, retryDelaySec := none }
    attemptStatus :=
      { id := 0, podUID := none, instanceUID := none, completionStatus := none } }

/-- Modelled from the spec (section 4.F): ci.TaskStatus.MarkAsDeletionPending
sets the flag and reports whether it was newly set. -/
def markAsDeletionPending (ts : TaskStatus) : TaskStatus × Bool :=
  if ts.deletionPending then (ts, false)
  else ({ ts with deletionPending := true }, true)

/-- Mark every task at position lo or beyond as deletion pending, reporting
whether any flag was newly set (the Go loop iterates the same positions from
the highest index downward, controller.go lines 811-816 and 831-836). -/
def markTasksFrom (lo : Nat) : Nat → List TaskStatus → List TaskStatus × Bool
  | _, [] => ([], false)
  | i, ts :: rest =>
    let tail := markTasksFrom lo (i + 1) rest
    if lo ≤ i then
      let head := markAsDeletionPending ts
      (head.1 :: tail.1, head.2 || tail.2)
    else (ts :: tail.1, tail.2)

/-- Replace the first role with the given name using a transformation that
also reports whether it produced a new pending task. -/
def updateFirstRoleWith (name : String)
    (g : TaskRoleStatus → TaskRoleStatus × Bool) :
    List TaskRoleStatus → List TaskRoleStatus × Bool
  | [] => ([], false)
  | trs :: rest =>
    if trs.name == name then
      let r := g trs
      (r.1 :: rest, r.2)
    else
      let r := updateFirstRoleWith name g rest
      (trs :: r.1, r.2)

/-- Per existing role scale step of syncFrameworkScale (controller.go lines
794-818): append CreationPending tasks up to the spec count, or mark the
excess tasks as deletion pending. -/
def syncScaleExistingRole (taskCountSpec : Nat) (now : Int)
    (trs : TaskRoleStatus) : TaskRoleStatus × Bool :=
  let cnt := trs.taskStatuses.length
  if cnt < taskCountSpec then
    ({ trs with taskStatuses := trs.taskStatuses ++
        ((List.range (taskCountSpec - cnt)).map (fun k => newTaskStatus (cnt + k) now)) },
     true)
  else if taskCountSpec < cnt then
    let r := markTasksFrom taskCountSpec 0 trs.taskStatuses
    ({ trs with taskStatuses := r.1 }, r.2)
  else (trs, false)

/-- Per spec-role step of the first loop of syncFrameworkScale
(controller.go lines 776-819): append a whole new role, or rescale the
existing one. -/
def syncScaleSpecRoleStep (now : Int) (acc : List TaskRoleStatus × Bool)
    (trSpec : TaskRoleSpec) : List TaskRoleStatus × Bool :=
  match acc.1.find? (fun trs => trs.name == trSpec.name) with
  | none =>
    (acc.1 ++ [{ name := trSpec.name
                 podGracefulDeletionTimeoutSec := none
                 taskStatuses :=
                   (List.range trSpec.taskNumber).map (fun k => newTaskStatus k now) }],
     acc.2 || decide (0 < trSpec.taskNumber))
  | some _ =>
    let r := updateFirstRoleWith trSpec.name
      (syncScaleExistingRole trSpec.taskNumber now) acc.1
    (r.1, acc.2 || r.2)

/-- Per-role step of the second loop of syncFrameworkScale (controller.go
lines 821-838): a role absent from the spec has all its tasks marked as
deletion pending. -/
def markRoleNotInSpec (spec : FrameworkSpec) (trs : TaskRoleStatus) :
    TaskRoleStatus × Bool :=
  match spec.getTaskRoleSpec trs.name with
  | none =>
    let r := markTasksFrom 0 0 trs.taskStatuses
    ({ trs with taskStatuses := r.1 }, r.2)
  | some _ => (trs, false)

/-- Second loop of syncFrameworkScale (controller.go lines 821-838): mark all
tasks of roles absent from the spec as deletion pending. -/
def syncScaleDownNotInSpec (spec : FrameworkSpec) (trss : List TaskRoleStatus) :
    List TaskRoleStatus × Bool :=
  let stepped := trss.map (markRoleNotInSpec spec)
  (stepped.map Prod.fst, stepped.any Prod.snd)

/-- Embedding of syncFrameworkScale (controller.go lines 758-841): skipped
while the framework is completing, FrameworkAttemptCompleted or
FrameworkCompleted; otherwise rescale every spec role and mark every
out-of-spec task as deletion pending.  Returns the rescaled framework and
whether a new pending task (slot or flag) was produced. -/
def syncFrameworkScale (f : Framework) (now : Int) : Framework × Bool :=
  if f.isCompleting || f.status.state == FrameworkState.frameworkAttemptCompleted
     || f.status.state == FrameworkState.frameworkCompleted then
    (f, false)
  else
    let r1 := f.spec.taskRoles.foldl (syncScaleSpecRoleStep now)
      (f.status.attemptStatus.taskRoleStatuses, false)
    let r2 := syncScaleDownNotInSpec f.spec r1.1
    ({ f with status := { f.status with attemptStatus :=
        { f.status.attemptStatus with taskRoleStatuses := r2.1 } } },
     r1.2 || r2.2)

/-- Task lookup by positions (role position, task position), used to state
old/new task correspondences of whole-status transformations. -/
def Framework.taskAtPos (f : Framework) (r i : Nat) : Option TaskStatus :=
  (f.status.attemptStatus.taskRoleStatuses.get? r).bind
    (fun trs => trs.taskStatuses.get? i)

/-- A concrete completed-succeeded completion status, for witnesses. -/
def exDoneCS : TaskAttemptCompletionStatus :=
  { completionStatus := { code := CompletionCode.succeeded, diagnostics := "done" }
    pod := none }

/-- A concrete creation-requested task (no completion yet), for witnesses. -/
def exTask0 : TaskStatus :=
  { index := 0
    state := TaskState.taskAttemptCreationRequested
    transitionTime := 0
    completionTime := 0
    deletionPending := false
    retryPolicyStatus := { totalRetriedCount := 0, accountableRetriedCount := 0, retryDelaySec := none }
    attemptStatus := { id := 0, podUID := some "pod-uid-0", instanceUID := none, completionStatus := none } }

/-- A concrete succeeded-completed task, for witnesses. -/
def exTask1 : TaskStatus :=
  { index := 1
    state := TaskState.taskCompleted
    transitionTime := 5
    completionTime := 5
    deletionPending := false
    retryPolicyStatus := { totalRetriedCount := 0, accountableRetriedCount := 0, retryDelaySec := none }
    attemptStatus := { id := 0, podUID := some "pod-uid-1", instanceUID := none, completionStatus := some exDoneCS } }

/-- A concrete framework with one role holding the two tasks above, for
witnesses. -/
def exF : Framework :=
  { fNamespace := "default"
    fName := "job"
    uid := "uid-f"
    deletionTimestamp := none
    spec :=
      { executionType := ExecutionType.start
        taskRoles :=
          [{ name := "worker"
             taskNumber := 2
             frameworkAttemptCompletionPolicy :=
               { minFailedTaskCount := 1, minSucceededTaskCount := 1 }
             podGracefulDeletionTimeoutSec := none }] }
    status :=
      { state := FrameworkState.frameworkAttemptRunning
        transitionTime := 0
        retryPolicyStatus := { totalRetriedCount := 0, accountableRetriedCount := 0, retryDelaySec := none }
        attemptStatus :=
          { id := 0
            configMapUID := some "cm-uid"
            instanceUID := none
            completionStatus := none
            taskRoleStatuses :=
              [{ name := "worker"
                 podGracefulDeletionTimeoutSec := none
                 taskStatuses := [exTask0, exTask1] }] } } }

/-- A concrete framework to rescale: the worker role is scaled down from two
tasks to one and the old role has left the spec entirely. -/
def exF2 : Framework :=
  { fNamespace := "default"
    fName := "job2"
    uid := "uid-f2"
    deletionTimestamp := none
    spec :=
      { executionType := ExecutionType.start
        taskRoles :=
          [{ name := "worker"
             taskNumber := 1
             frameworkAttemptCompletionPolicy :=
               { minFailedTaskCount := -1, minSucceededTaskCount := -1 }
             podGracefulDeletionTimeoutSec := none }] }
    status :=
      { state := FrameworkState.frameworkAttemptRunning
        transitionTime := 0
        retryPolicyStatus := { totalRetriedCount := 0, accountableRetriedCount := 0, retryDelaySec := none }
        attemptStatus :=
          { id := 0
            configMapUID := some "cm-uid-2"
            instanceUID := none
            completionStatus := none
            taskRoleStatuses :=
              [{ name := "worker"
                 podGracefulDeletionTimeoutSec := none
                 taskStatuses := [exTask0, exTask1] },
               { name := "old"
                 podGracefulDeletionTimeoutSec := none
                 taskStatuses := [exTask0] }] } } }

/-- The per-role candidates of the all-tasks-completed phase, in role order;
the loop of controller.go lines 1540-1562 folds over them. -/
def completionPolicyLastCandidates (f : Framework) : List (String × TaskStatus) :=
  f.spec.taskRoles.flatMap (fun trSpec => (roleLastCompleted f trSpec).toList)

/-- A concrete framework whose only declared task has completed, for the
all-tasks-completed witness: thresholds are off and the single worker task is
the latest-completed task. -/
def exF8 : Framework :=
  { fNamespace := "default"
    fName := "job8"
    uid := "uid-f8"
    deletionTimestamp := none
    spec :=
      { executionType := ExecutionType.start
        taskRoles :=
          [{ name := "worker"
             taskNumber := 1
             frameworkAttemptCompletionPolicy :=
               { minFailedTaskCount := -1, minSucceededTaskCount := -1 }
             podGracefulDeletionTimeoutSec := none }] }
    status :=
      { state := FrameworkState.frameworkAttemptRunning
        transitionTime := 0
        retryPolicyStatus := { totalRetriedCount := 0, accountableRetriedCount := 0, retryDelaySec := none }
        attemptStatus :=
          { id := 0
            configMapUID := some "cm-uid-8"
            instanceUID := none
            completionStatus := none
            taskRoleStatuses :=
              [{ name := "worker"
                 podGracefulDeletionTimeoutSec := none
                 taskStatuses := [exTask1] }] } } }

/-- A concrete FrameworkAttemptCompleted framework with a scheduled retry and
a Stop request, for the retry witnesses. -/
def exFRetry : Framework :=
  { exF with
    spec := { exF.spec with executionType := ExecutionType.stop }
    status := { exF.status with
      state := FrameworkState.frameworkAttemptCompleted
      retryPolicyStatus :=
        { totalRetriedCount := 1, accountableRetriedCount := 0, retryDelaySec := some 3 } } }

/-- A concrete preparing framework with a Stop request, for the stop witness. -/
def exFStopPrep : Framework :=
  { exF with
    spec := { exF.spec with executionType := ExecutionType.stop }
    status := { exF.status with state := FrameworkState.frameworkAttemptPreparing } }

/-- The stop completion status used by the witnesses. -/
def exStopCS : FrameworkAttemptCompletionStatus :=
  newCodeFrameworkAttemptCompletionStatus CompletionCode.stopFrameworkRequested "stop"

/-- The concrete framework with its attempt completion status already set. -/
def exFDone : Framework :=
  { exF with
    status := { exF.status with
      attemptStatus := { exF.status.attemptStatus with
        completionStatus := some exStopCS } } }

section Lemmas

/-- find? after updateFirstRole: the found element is transformed, provided
the transformation preserves the role name. -/
theorem find?_updateFirstRole (name : String) (g : TaskRoleStatus → TaskRoleStatus)
    (hname : ∀ trs, (g trs).name = trs.name) (l : List TaskRoleStatus) :
    (updateFirstRole name g l).find? (fun trs => trs.name == name) =
      (l.find? (fun trs => trs.name == name)).map g := by
  induction l with
  | nil => rfl
  | cons trs rest ih =>
    by_cases h : trs.name == name
    · simp [updateFirstRole, h, List.find?, hname trs]
    · simp only [updateFirstRole, h, Bool.false_eq_true, if_false, List.find?]
      exact ih

/-- get? after modifyAt at the modified position. -/
theorem get?_modifyAt (g : α → α) (i : Nat) (l : List α) :
    (modifyAt g i l).get? i = (l.get? i).map g := by
  induction l generalizing i with
  | nil => cases i <;> rfl
  | cons a rest ih =>
    cases i with
    | zero => rfl
    | succ n => simpa [modifyAt] using ih n

/-- Task lookup after an in-place task update. -/
theorem taskStatusAt_updateTask (f : Framework) (roleName : String) (i : Nat)
    (g : TaskStatus → TaskStatus) :
    (f.updateTask roleName i g).taskStatusAt roleName i =
      (f.taskStatusAt roleName i).map g := by
  unfold Framework.updateTask Framework.taskStatusAt Framework.getTaskRoleStatus
  simp only
  rw [find?_updateFirstRole roleName
    (fun trs => { trs with taskStatuses := modifyAt g i trs.taskStatuses })
    (fun _ => rfl)]
  cases f.status.attemptStatus.taskRoleStatuses.find? (fun trs => trs.name == roleName) with
  | none => rfl
  | some trs => simpa using get?_modifyAt g i trs.taskStatuses

/-- Task lookup (by position) after a whole-status task map. -/
theorem taskAtPos_mapTasks (f : Framework) (g : TaskStatus → TaskStatus)
    (r i : Nat) :
    (f.mapTasks g).taskAtPos r i = (f.taskAtPos r i).map g := by
  unfold Framework.mapTasks Framework.taskAtPos
  simp only [List.get?_map]
  cases f.status.attemptStatus.taskRoleStatuses.get? r with
  | none => rfl
  | some trs => simp [List.get?_map]

/-- forceCompleteTask never changes the recorded attempt completion status
(it only rewrites a nil status to nil). -/
theorem forceCompleteTask_completionStatus (now : Int) (ts : TaskStatus) :
    (forceCompleteTask now ts).attemptStatus.completionStatus =
      ts.attemptStatus.completionStatus := by
  simp only [forceCompleteTask]
  split
  · split
    · split <;> simp_all
    · rfl
  · rfl

/-- cascadeTask fills a nil completion status with the default one and leaves
a non-nil one unchanged. -/
theorem cascadeTask_completionStatus (ts : TaskStatus) :
    (cascadeTask ts).attemptStatus.completionStatus =
      some ((ts.attemptStatus.completionStatus).getD defaultTaskCompletion) := by
  unfold cascadeTask
  cases h : ts.attemptStatus.completionStatus <;> simp_all

/-- The framework-attempt completion status survives the task stages of
completeFrameworkAttempt untouched. -/
theorem completionStatus_completeFrameworkAttempt (f : Framework) (now : Int)
    (force : Bool) (arg : Option FrameworkAttemptCompletionStatus) :
    (completeFrameworkAttempt f now force arg).status.attemptStatus.completionStatus =
      (if f.status.attemptStatus.completionStatus == none then arg
       else f.status.attemptStatus.completionStatus) := by
  unfold completeFrameworkAttempt Framework.mapTasks Framework.transitionFrameworkState
  cases h : f.status.attemptStatus.completionStatus <;> cases force <;> simp [h]

end Lemmas

/-- C3: CompletionStatus is write-once per attempt: completeTaskAttempt and
completeFrameworkAttempt leave an already non-nil CompletionStatus unchanged
(the completionStatus argument is discarded); the field is only assigned when
it was nil. -/
theorem completionStatus_write_once :
    (∀ (f : Framework) (roleName : String) (i : Nat) (now : Int) (force : Bool)
        (arg : Option TaskAttemptCompletionStatus) (ts : TaskStatus)
        (cs0 : TaskAttemptCompletionStatus),
      f.taskStatusAt roleName i = some ts →
      ts.attemptStatus.completionStatus = some cs0 →
      ∃ ts', (completeTaskAttempt f roleName i now force arg).taskStatusAt roleName i
          = some ts'
        ∧ ts'.attemptStatus.completionStatus = some cs0) ∧
    (∀ (f : Framework) (now : Int) (force : Bool)
        (arg : Option FrameworkAttemptCompletionStatus)
        (cs0 : FrameworkAttemptCompletionStatus),
      f.status.attemptStatus.completionStatus = some cs0 →
      (completeFrameworkAttempt f now force arg).status.attemptStatus.completionStatus
        = some cs0) := by
  constructor
  · intro f roleName i now force arg ts cs0 hts hcs
    unfold completeTaskAttempt
    cases force <;>
    · simp only [Bool.false_eq_true, if_false, if_true]
      unfold Framework.transitionTaskState
      rw [taskStatusAt_updateTask, taskStatusAt_updateTask, hts]
      simp [hcs]
  · intro f now force arg cs0 hcs
    rw [completionStatus_completeFrameworkAttempt, hcs]
    rfl

/-- C3 witness: the write-once property applied to the concrete framework. -/
theorem completionStatus_write_once_witness :
    (∃ ts', (completeTaskAttempt exF "worker" 1 7 true none).taskStatusAt "worker" 1
        = some ts'
      ∧ ts'.attemptStatus.completionStatus = some exDoneCS) ∧
    ((completeFrameworkAttempt exFDone 7 false none).status.attemptStatus.completionStatus
      = some exStopCS) :=
  ⟨completionStatus_write_once.1 exF "worker" 1 7 true none exTask1 exDoneCS rfl rfl,
   completionStatus_write_once.2 exFDone 7 false none exStopCS rfl⟩

/-- Task lookup is untouched by a framework state transition. -/
theorem taskAtPos_transition (f : Framework) (s : FrameworkState) (now : Int)
    (r i : Nat) :
    (f.transitionFrameworkState s now).taskAtPos r i = f.taskAtPos r i := rfl

/-- Task lookup is untouched by setting the attempt completion status. -/
theorem taskAtPos_setCS (f : Framework)
    (cs : Option FrameworkAttemptCompletionStatus) (r i : Nat) :
    ({ f with status := { f.status with attemptStatus :=
      { f.status.attemptStatus with completionStatus := cs } } } : Framework).taskAtPos r i
      = f.taskAtPos r i := rfl

/-- How completeFrameworkAttempt rewrites each task. -/
theorem taskAtPos_completeFrameworkAttempt (f : Framework) (now : Int)
    (force : Bool) (arg : Option FrameworkAttemptCompletionStatus) (r i : Nat) :
    (completeFrameworkAttempt f now force arg).taskAtPos r i
      = (f.taskAtPos r i).map
          (fun ts =>
            if force then forceCompleteTask now (cascadeTask ts) else cascadeTask ts) := by
  simp only [completeFrameworkAttempt]
  cases force with
  | false =>
    simp only [Bool.false_eq_true, if_false]
    rw [taskAtPos_transition]
    split
    · rw [taskAtPos_mapTasks, taskAtPos_setCS]
    · rw [taskAtPos_mapTasks]
  | true =>
    simp only [if_true]
    rw [taskAtPos_transition, taskAtPos_mapTasks, taskAtPos_mapTasks]
    split
    · rw [taskAtPos_setCS, Option.map_map]
      rfl
    · rw [Option.map_map]
      rfl

/-- C5: completing a framework attempt (forced or not) assigns the default
FrameworkAttemptCompletion completion status to every task attempt whose
CompletionStatus is still nil, and task attempts that already have one keep
it. -/
theorem completeFrameworkAttempt_cascades_default :
    ∀ (f : Framework) (now : Int) (force : Bool)
      (arg : Option FrameworkAttemptCompletionStatus) (r i : Nat) (ts : TaskStatus),
      f.taskAtPos r i = some ts →
      ∃ ts', (completeFrameworkAttempt f now force arg).taskAtPos r i = some ts'
        ∧ (ts.attemptStatus.completionStatus = none →
            ts'.attemptStatus.completionStatus = some defaultTaskCompletion
            ∧ defaultTaskCompletion.completionStatus.code
                = CompletionCode.frameworkAttemptCompletion)
        ∧ (∀ x, ts.attemptStatus.completionStatus = some x →
            ts'.attemptStatus.completionStatus = some x) := by
  intro f now force arg r i ts hts
  refine ⟨if force then forceCompleteTask now (cascadeTask ts) else cascadeTask ts,
    ?_, ?_, ?_⟩
  · rw [taskAtPos_completeFrameworkAttempt, hts]
    rfl
  · intro hnone
    have hc : (cascadeTask ts).attemptStatus.completionStatus
        = some defaultTaskCompletion := by
      rw [cascadeTask_completionStatus, hnone]
      rfl
    cases force with
    | false => exact ⟨hc, rfl⟩
    | true =>
      refine ⟨?_, rfl⟩
      simpa [forceCompleteTask_completionStatus] using hc
  · intro x hx
    have hc : (cascadeTask ts).attemptStatus.completionStatus = some x := by
      rw [cascadeTask_completionStatus, hx]
      rfl
    cases force with
    | false => exact hc
    | true => simpa [forceCompleteTask_completionStatus] using hc

/-- C5 witness: the cascade applied to the concrete framework at the
not-yet-completed task. -/
theorem completeFrameworkAttempt_cascades_default_witness :
    ∃ ts', (completeFrameworkAttempt exF 9 false none).taskAtPos 0 0 = some ts'
      ∧ (exTask0.attemptStatus.completionStatus = none →
          ts'.attemptStatus.completionStatus = some defaultTaskCompletion
          ∧ defaultTaskCompletion.completionStatus.code
              = CompletionCode.frameworkAttemptCompletion)
      ∧ (∀ x, exTask0.attemptStatus.completionStatus = some x →
          ts'.attemptStatus.completionStatus = some x) :=
  completeFrameworkAttempt_cascades_default exF 9 false none 0 0 exTask0 rfl

/-- C9: a Framework update event with the same UID and a deeply-equal spec
enqueues nothing: status-only or metadata-only updates leave the work queue
unchanged. -/
theorem updateFrameworkObj_spec_unchanged_no_enqueue (oldF newF : Framework)
    (huid : oldF.uid = newF.uid) (hspec : oldF.spec = newF.spec) :
    updateFrameworkObj oldF newF = [] := by
  unfold updateFrameworkObj
  rw [huid, hspec]
  simp

/-- C9 witness: a status-only update of the concrete framework enqueues
nothing. -/
theorem updateFrameworkObj_spec_unchanged_no_enqueue_witness :
    updateFrameworkObj exF
      { exF with status :=
        { exF.status with state := FrameworkState.frameworkAttemptPreparing } } = [] :=
  updateFrameworkObj_spec_unchanged_no_enqueue _ _ rfl rfl

/-- C10: the delete helpers are idempotent with respect to already-absent
objects: a not-found delete error yields success for deleteFramework,
deleteConfigMap and deletePod, while any other delete error propagates as an
error. -/
theorem delete_helpers_ignore_not_found :
    (∀ (f : Framework) (confirm : Bool) (gr : ApiResult RemoteObject),
        deleteFramework f confirm ApiResult.notFound gr = Except.ok ()) ∧
    (∀ (f : Framework) (confirm : Bool) (m : String) (gr : ApiResult RemoteObject),
        ∃ e, deleteFramework f confirm (ApiResult.otherError m) gr = Except.error e) ∧
    (∀ (cmUID : String) (confirm : Bool) (gr : ApiResult RemoteObject),
        deleteConfigMap cmUID confirm ApiResult.notFound gr = Except.ok ()) ∧
    (∀ (cmUID : String) (confirm : Bool) (m : String) (gr : ApiResult RemoteObject),
        ∃ e, deleteConfigMap cmUID confirm (ApiResult.otherError m) gr = Except.error e) ∧
    (∀ (podUID : String) (confirm force : Bool) (gr : ApiResult RemoteObject),
        deletePod podUID confirm force ApiResult.notFound gr = Except.ok ()) ∧
    (∀ (podUID : String) (confirm force : Bool) (m : String)
        (gr : ApiResult RemoteObject),
        ∃ e, deletePod podUID confirm force (ApiResult.otherError m) gr
          = Except.error e) := by
  refine ⟨?_, ?_, ?_, ?_, ?_, ?_⟩ <;> intros <;>
    first
      | rfl
      | exact ⟨_, rfl⟩

/-- retryOrWait only returns the retried outcome through retryFramework. -/
theorem retryOrWait_retried (g : Framework) (rd : RetryDecision) (now : Int)
    (f' : Framework)
    (h : retryOrWait g rd now = (f', FrameworkSyncOutcome.retried)) :
    f' = (retryFramework g rd now).1 := by
  unfold retryOrWait at h
  split at h
  · exact (congrArg Prod.fst h).symm
  · split at h
    · exact absurd (congrArg Prod.snd h) (by simp)
    · exact (congrArg Prod.fst h).symm ▸ rfl

/-- Field computation of retryFramework relative to its input. -/
theorem retryFramework_fields (g : Framework) (rd : RetryDecision) (now : Int) :
    (retryFramework g rd now).1.status.retryPolicyStatus.totalRetriedCount
        = g.status.retryPolicyStatus.totalRetriedCount + 1
    ∧ (retryFramework g rd now).1.status.retryPolicyStatus.accountableRetriedCount
        = g.status.retryPolicyStatus.accountableRetriedCount
          + (if rd.isAccountable then 1 else 0)
    ∧ (retryFramework g rd now).1.status.retryPolicyStatus.retryDelaySec = none
    ∧ (retryFramework g rd now).1.status.attemptStatus
        = newFrameworkAttemptStatus (g.status.retryPolicyStatus.totalRetriedCount + 1)
    ∧ (retryFramework g rd now).1.status.state
        = FrameworkState.frameworkAttemptCreationPending := by
  refine ⟨rfl, ?_, rfl, rfl, rfl⟩
  cases h : rd.isAccountable <;>
    simp [retryFramework, Framework.transitionFrameworkState, h]

/-- C6: when a FrameworkAttemptCompleted framework's retry fires, the status
is updated exactly as follows: totalRetriedCount is incremented by one,
accountableRetriedCount is incremented iff the retry decision is accountable,
retryDelaySec is reset to nil, a fresh attemptStatus is minted carrying the
new totalRetriedCount as attempt id, and the state returns to
FrameworkAttemptCreationPending. -/
theorem retryFramework_updates_status (f : Framework) (rd : RetryDecision)
    (now : Int) (f' : Framework)
    (_hstate : f.status.state = FrameworkState.frameworkAttemptCompleted)
    (hfired : attemptToRetryFramework f rd now = (f', FrameworkSyncOutcome.retried)) :
    f'.status.retryPolicyStatus.totalRetriedCount
        = f.status.retryPolicyStatus.totalRetriedCount + 1
    ∧ f'.status.retryPolicyStatus.accountableRetriedCount
        = f.status.retryPolicyStatus.accountableRetriedCount
          + (if rd.isAccountable then 1 else 0)
    ∧ f'.status.retryPolicyStatus.retryDelaySec = none
    ∧ f'.status.attemptStatus
        = newFrameworkAttemptStatus (f.status.retryPolicyStatus.totalRetriedCount + 1)
    ∧ f'.status.state = FrameworkState.frameworkAttemptCreationPending := by
  unfold attemptToRetryFramework at hfired
  cases hdel : f.status.retryPolicyStatus.retryDelaySec with
  | none =>
    rw [hdel] at hfired
    by_cases hsr : rd.shouldRetry = true
    · simp only [hsr, if_true] at hfired
      have hfix := retryOrWait_retried _ rd now f' hfired
      subst hfix
      exact retryFramework_fields _ rd now
    · simp only [hsr, Bool.false_eq_true, if_false] at hfired
      exact absurd (congrArg Prod.snd hfired) (by simp)
  | some d =>
    rw [hdel] at hfired
    have hfix := retryOrWait_retried f rd now f' hfired
    subst hfix
    exact retryFramework_fields f rd now

/-- C6 witness: the retry fires on the concrete framework (Stop bypasses the
delay) and updates the status exactly as claimed. -/
theorem retryFramework_updates_status_witness :
    ((attemptToRetryFramework exFRetry ⟨true, true, 3⟩ 100).1).status.retryPolicyStatus.totalRetriedCount
        = exFRetry.status.retryPolicyStatus.totalRetriedCount + 1
    ∧ ((attemptToRetryFramework exFRetry ⟨true, true, 3⟩ 100).1).status.retryPolicyStatus.accountableRetriedCount
        = exFRetry.status.retryPolicyStatus.accountableRetriedCount
          + (if (RetryDecision.mk true true 3).isAccountable then 1 else 0)
    ∧ ((attemptToRetryFramework exFRetry ⟨true, true, 3⟩ 100).1).status.retryPolicyStatus.retryDelaySec = none
    ∧ ((attemptToRetryFramework exFRetry ⟨true, true, 3⟩ 100).1).status.attemptStatus
        = newFrameworkAttemptStatus (exFRetry.status.retryPolicyStatus.totalRetriedCount + 1)
    ∧ ((attemptToRetryFramework exFRetry ⟨true, true, 3⟩ 100).1).status.state
        = FrameworkState.frameworkAttemptCreationPending :=
  retryFramework_updates_status exFRetry ⟨true, true, 3⟩ 100
    (attemptToRetryFramework exFRetry ⟨true, true, 3⟩ 100).1 rfl rfl

/-- The state written by completeFrameworkAttempt. -/
theorem completeFrameworkAttempt_state (f : Framework) (now : Int)
    (force : Bool) (arg : Option FrameworkAttemptCompletionStatus) :
    (completeFrameworkAttempt f now force arg).status.state
      = (if force then FrameworkState.frameworkAttemptCompleted
         else FrameworkState.frameworkAttemptDeletionPending) := by
  simp only [completeFrameworkAttempt]
  cases force <;> split <;> rfl

/-- C7: a Stop request on a not-completing attempt in the
Preparing/Running/DeletionRequested/Deleting branch completes the attempt
(non-forced) with StopFrameworkRequested, and a Stop request on a
FrameworkAttemptCompleted framework with a scheduled retry bypasses the
retry-delay timeout check so the retry fires immediately. -/
theorem stop_framework_behavior :
    (∀ (f : Framework) (now : Int),
      (f.status.state = FrameworkState.frameworkAttemptPreparing
        ∨ f.status.state = FrameworkState.frameworkAttemptRunning
        ∨ f.status.state = FrameworkState.frameworkAttemptDeletionRequested
        ∨ f.status.state = FrameworkState.frameworkAttemptDeleting) →
      f.isCompleting = false →
      f.spec.executionType = ExecutionType.stop →
      f.status.attemptStatus.completionStatus = none →
      (syncFrameworkStateStopThenPolicy f now).status.attemptStatus.completionStatus
          = some (newCodeFrameworkAttemptCompletionStatus
              CompletionCode.stopFrameworkRequested
              "User has requested to stop the Framework")
        ∧ (syncFrameworkStateStopThenPolicy f now).status.state
            = FrameworkState.frameworkAttemptDeletionPending) ∧
    (∀ (f : Framework) (rd : RetryDecision) (now : Int) (d : Int),
      f.status.state = FrameworkState.frameworkAttemptCompleted →
      f.status.retryPolicyStatus.retryDelaySec = some d →
      f.spec.executionType = ExecutionType.stop →
      (attemptToRetryFramework f rd now).2 = FrameworkSyncOutcome.retried
        ∧ (attemptToRetryFramework f rd now).1.status.state
            = FrameworkState.frameworkAttemptCreationPending) := by
  constructor
  · intro f now _hstate hnc hstop hcs
    unfold syncFrameworkStateStopThenPolicy
    have hguard : (!f.isCompleting && f.spec.executionType == ExecutionType.stop) = true := by
      rw [hnc, hstop]
      rfl
    rw [hguard]
    simp only [if_true]
    have hstate' := completeFrameworkAttempt_state f now false
      (some (newCodeFrameworkAttemptCompletionStatus
        CompletionCode.stopFrameworkRequested
        "User has requested to stop the Framework"))
    have hcompleting :
        (completeFrameworkAttempt f now false
          (some (newCodeFrameworkAttemptCompletionStatus
            CompletionCode.stopFrameworkRequested
            "User has requested to stop the Framework"))).isCompleting = true := by
      unfold Framework.isCompleting
      rw [hstate']
      rfl
    rw [hcompleting]
    simp only [Bool.not_true, Bool.false_eq_true, if_false]
    constructor
    · rw [completionStatus_completeFrameworkAttempt, hcs]
      rfl
    · rw [hstate']
      rfl
  · intro f rd now d hstate hdel hstop
    have h2 : attemptToRetryFramework f rd now = retryFramework f rd now := by
      unfold attemptToRetryFramework retryOrWait
      rw [hdel]
      have : (f.spec.executionType == ExecutionType.stop) = true := by
        rw [hstop]
        rfl
      rw [this]
      simp
    rw [h2]
    exact ⟨rfl, (retryFramework_fields f rd now).2.2.2.2⟩

/-- C7 witness: the stop behavior on the concrete preparing framework and on
the concrete completed framework with a scheduled retry. -/
theorem stop_framework_behavior_witness :
    ((syncFrameworkStateStopThenPolicy exFStopPrep 4).status.attemptStatus.completionStatus
        = some (newCodeFrameworkAttemptCompletionStatus
            CompletionCode.stopFrameworkRequested
            "User has requested to stop the Framework")
      ∧ (syncFrameworkStateStopThenPolicy exFStopPrep 4).status.state
          = FrameworkState.frameworkAttemptDeletionPending) ∧
    ((attemptToRetryFramework exFRetry ⟨true, false, 0⟩ 1).2 = FrameworkSyncOutcome.retried
      ∧ (attemptToRetryFramework exFRetry ⟨true, false, 0⟩ 1).1.status.state
          = FrameworkState.frameworkAttemptCreationPending) :=
  ⟨stop_framework_behavior.1 exFStopPrep 4 (Or.inl rfl) rfl rfl rfl,
   stop_framework_behavior.2 exFRetry ⟨true, false, 0⟩ 1 3 rfl rfl rfl⟩

/-- C4 counterexample: on a concrete creation-requested task whose pod is
absent from the local cache past the timeout, the remote delete the controller
issues is not a force delete: its grace period is unset, whereas a force
delete carries grace period zero (deletePodOptions with force).  It is not
best-effort either: when the delete fails, the task attempt is not completed
and the sync aborts with the error. -/
theorem syncTaskState_creation_timeout_counterexample :
    ((syncTaskStateCreationRequestedPodAbsent exF "worker" 0 (some 10) 100
        (ApiResult.ok ()) ApiResult.notFound).2.1
      = [TaskSyncAction.deletePodRemote
           { preconditionUID := "pod-uid-0", gracePeriodSeconds := none } true,
         TaskSyncAction.completeTaskAttemptCall true CompletionCode.podCreationTimeout]
      ∧ (deletePodOptions "pod-uid-0" true).gracePeriodSeconds = some 0)
    ∧ ((syncTaskStateCreationRequestedPodAbsent exF "worker" 0 (some 10) 100
          (ApiResult.otherError "boom") ApiResult.notFound).1 = exF
      ∧ (syncTaskStateCreationRequestedPodAbsent exF "worker" 0 (some 10) 100
          (ApiResult.otherError "boom") ApiResult.notFound).2.2
            = some "Failed to delete Pod: boom"
      ∧ (syncTaskStateCreationRequestedPodAbsent exF "worker" 0 (some 10) 100
          (ApiResult.otherError "boom") ApiResult.notFound).2.1
        = [TaskSyncAction.deletePodRemote
            { preconditionUID := "pod-uid-0", gracePeriodSeconds := none } true]) := by
  decide

/-- C4 (amended): for a TaskAttemptCreationRequested, not deletion-pending
task whose pod is absent from the local cache past the
objectLocalCacheCreationTimeoutSec timeout, the controller deletes the pod in
the remote non-forced, with its UID as precondition and with the deletion
confirmed; exactly when that delete reports success (not-found counts as
success) the task attempt is force-completed with completion code
PodCreationTimeout, while a delete error aborts the sync with the framework
unchanged. -/
theorem syncTaskState_creation_timeout_behavior (f : Framework)
    (roleName : String) (i : Nat) (cfgTimeout : Option Int) (now : Int)
    (dr : ApiResult Unit) (gr : ApiResult RemoteObject)
    (ts : TaskStatus) (u : String)
    (hts : f.taskStatusAt roleName i = some ts)
    (hstate : ts.state = TaskState.taskAttemptCreationRequested)
    (hdp : ts.deletionPending = false)
    (huid : ts.attemptStatus.podUID = some u)
    (htimeout : isTimeout ts.transitionTime cfgTimeout now = true)
    (hcs : ts.attemptStatus.completionStatus = none) :
    (∀ r, deletePod u true false dr gr = Except.ok r →
      (syncTaskStateCreationRequestedPodAbsent f roleName i cfgTimeout now dr gr).2.1
        = [TaskSyncAction.deletePodRemote (deletePodOptions u false) true,
           TaskSyncAction.completeTaskAttemptCall true CompletionCode.podCreationTimeout]
      ∧ (deletePodOptions u false).gracePeriodSeconds = none
      ∧ ∃ ts',
          (syncTaskStateCreationRequestedPodAbsent f roleName i cfgTimeout
              now dr gr).1.taskStatusAt roleName i = some ts'
          ∧ ts'.state = TaskState.taskAttemptCompleted
          ∧ ts'.attemptStatus.completionStatus
              = some (newTaskAttemptCompletionStatus
                  CompletionCode.podCreationTimeout "")) ∧
    (∀ e, deletePod u true false dr gr = Except.error e →
      (syncTaskStateCreationRequestedPodAbsent f roleName i cfgTimeout now dr gr).1 = f
      ∧ (syncTaskStateCreationRequestedPodAbsent f roleName i cfgTimeout now dr gr).2.2
          = some e) := by
  have hwait : enqueueTaskAttemptCreationTimeoutCheck ts cfgTimeout now true = false := by
    unfold enqueueTaskAttemptCreationTimeoutCheck
    rw [hstate]
    simp [htimeout]
  have hgetD : ts.attemptStatus.podUID.getD "" = u := by
    rw [huid]
    rfl
  constructor
  · intro r hok
    simp only [syncTaskStateCreationRequestedPodAbsent, hts, hdp, Bool.false_eq_true,
      if_false, hwait, hgetD, hok]
    refine ⟨trivial, rfl, ?_⟩
    simp only [completeTaskAttempt, if_true]
    unfold Framework.transitionTaskState
    rw [taskStatusAt_updateTask, taskStatusAt_updateTask, hts]
    simp only [Option.map_some', hcs]
    exact ⟨_, rfl, rfl, by simp [hcs]⟩
  · intro e herr
    simp only [syncTaskStateCreationRequestedPodAbsent, hts, hdp, Bool.false_eq_true,
      if_false, hwait, hgetD, herr]
    exact ⟨trivial, trivial⟩

/-- C4 witness: the amended behavior applied to the concrete framework. -/
theorem syncTaskState_creation_timeout_behavior_witness :
    ((syncTaskStateCreationRequestedPodAbsent exF "worker" 0 (some 10) 100
        (ApiResult.ok ()) ApiResult.notFound).2.1
      = [TaskSyncAction.deletePodRemote (deletePodOptions "pod-uid-0" false) true,
         TaskSyncAction.completeTaskAttemptCall true CompletionCode.podCreationTimeout]
      ∧ (deletePodOptions "pod-uid-0" false).gracePeriodSeconds = none
      ∧ ∃ ts',
          (syncTaskStateCreationRequestedPodAbsent exF "worker" 0 (some 10) 100
              (ApiResult.ok ()) ApiResult.notFound).1.taskStatusAt "worker" 0 = some ts'
          ∧ ts'.state = TaskState.taskAttemptCompleted
          ∧ ts'.attemptStatus.completionStatus
              = some (newTaskAttemptCompletionStatus
                  CompletionCode.podCreationTimeout "")) :=
  (syncTaskState_creation_timeout_behavior exF "worker" 0 (some 10) 100
    (ApiResult.ok ()) ApiResult.notFound exTask0 "pod-uid-0"
    rfl rfl rfl rfl (by decide) rfl).1 () rfl

/-- Sorting keeps the length. -/
theorem length_sortByCompletionTime (l : List TaskStatus) :
    (sortByCompletionTime l).length = l.length :=
  (List.perm_insertionSort timeLE l).length_eq

/-- Sorting keeps the members. -/
theorem mem_sortByCompletionTime (l : List TaskStatus) (t : TaskStatus) :
    t ∈ sortByCompletionTime l ↔ t ∈ l :=
  (List.perm_insertionSort timeLE l).mem_iff

/-- The sorted list is sorted by completion time. -/
theorem sorted_sortByCompletionTime (l : List TaskStatus) :
    List.Sorted timeLE (sortByCompletionTime l) :=
  List.sorted_insertionSort timeLE l

/-- The candidate-or-keep update always holds a value with the stated
minimality facts. -/
theorem updCand_some_spec (acc : Option (Int × FrameworkAttemptCompletionStatus))
    (c : Int × FrameworkAttemptCompletionStatus) :
    ∃ a, updCand acc (some c) = some a
      ∧ (a = c ∨ acc = some a)
      ∧ a.1 ≤ c.1
      ∧ (∀ b, acc = some b → a.1 ≤ b.1) := by
  cases acc with
  | none =>
    refine ⟨c, rfl, Or.inl rfl, le_refl _, ?_⟩
    intro b hb
    cases hb
  | some a0 =>
    by_cases h : c.1 < a0.1
    · refine ⟨c, by simp [updCand, h], Or.inl rfl, le_refl _, ?_⟩
      intro b hb
      injection hb with hb
      rw [← hb]
      exact le_of_lt h
    · refine ⟨a0, by simp [updCand, h], Or.inr rfl, by omega, ?_⟩
      intro b hb
      injection hb with hb
      rw [← hb]

/-- Folding the candidate-or-keep update over a candidate list returns none
iff there was nothing to pick, and otherwise picks a minimum: an
element of the list (or the start) whose completion time is at most every
candidate's. -/
theorem foldl_updCand_min (l : List (Int × FrameworkAttemptCompletionStatus)) :
    ∀ acc : Option (Int × FrameworkAttemptCompletionStatus),
      ((l.foldl (fun acc c => updCand acc (some c)) acc = none)
          ↔ (acc = none ∧ l = []))
      ∧ (∀ p, l.foldl (fun acc c => updCand acc (some c)) acc = some p →
          ((acc = some p ∨ p ∈ l)
            ∧ (∀ c ∈ l, p.1 ≤ c.1)
            ∧ (∀ a, acc = some a → p.1 ≤ a.1))) := by
  induction l with
  | nil =>
    intro acc
    constructor
    · simp
    · intro p hp
      simp only [List.foldl_nil] at hp
      refine ⟨Or.inl hp, by simp, ?_⟩
      intro a ha
      rw [hp] at ha
      injection ha with ha
      rw [ha]
  | cons c rest ih =>
    intro acc
    obtain ⟨a, hEq, hmem, hle, hbnd⟩ := updCand_some_spec acc c
    constructor
    · constructor
      · intro hnone
        rw [List.foldl_cons, hEq] at hnone
        have h2 := ((ih (some a)).1).mp hnone
        exact absurd h2.1 (by simp)
      · rintro ⟨-, h⟩
        cases h
    · intro p hp
      rw [List.foldl_cons, hEq] at hp
      obtain ⟨hm, hl, hb⟩ := (ih (some a)).2 p hp
      have hpa : p.1 ≤ a.1 := hb a rfl
      refine ⟨?_, ?_, ?_⟩
      · cases hm with
        | inl h =>
          injection h with h
          cases hmem with
          | inl hc =>
            rw [← h, hc]
            exact Or.inr (List.mem_cons_self c rest)
          | inr hacc =>
            rw [h] at hacc
            exact Or.inl hacc
        | inr h => exact Or.inr (List.mem_cons_of_mem c h)
      · intro c' hc'
        cases List.mem_cons.mp hc' with
        | inl h =>
          rw [h]
          exact le_trans hpa hle
        | inr h => exact hl c' h
      · intro b hbacc
        exact le_trans hpa (hbnd b hbacc)

/-- Folding the update over an optional candidate. -/
theorem foldl_updCand_toList (acc o : Option (Int × FrameworkAttemptCompletionStatus)) :
    (o.toList).foldl (fun acc c => updCand acc (some c)) acc = updCand acc o := by
  cases o <;> rfl

/-- The per-role loop of the first phase folds exactly over the candidate
list. -/
theorem completionPolicyFirstTrigger_eq_fold (f : Framework) :
    completionPolicyFirstTrigger f
      = (completionPolicyCandidates f).foldl (fun acc c => updCand acc (some c)) none := by
  unfold completionPolicyFirstTrigger completionPolicyCandidates
  generalize f.spec.taskRoles = l
  suffices h : ∀ acc, l.foldl (fun acc trSpec =>
      updCand (updCand acc (roleFailedTrigger f trSpec)) (roleSucceededTrigger f trSpec)) acc
    = (l.flatMap (fun trSpec =>
        (roleFailedTrigger f trSpec).toList ++ (roleSucceededTrigger f trSpec).toList)).foldl
        (fun acc c => updCand acc (some c)) acc from h none
  induction l with
  | nil => intro acc; rfl
  | cons s rest ih =>
    intro acc
    rw [List.foldl_cons, List.flatMap_cons, List.foldl_append, List.foldl_append,
      foldl_updCand_toList, foldl_updCand_toList]
    exact ih _

/-- A failed-task threshold below 1 is off: the role yields no candidate. -/
theorem roleFailedTrigger_off (f : Framework) (trSpec : TaskRoleSpec)
    (h : trSpec.frameworkAttemptCompletionPolicy.minFailedTaskCount < 1) :
    roleFailedTrigger f trSpec = none := by
  unfold roleFailedTrigger
  cases f.getTaskRoleStatus trSpec.name with
  | none => rfl
  | some trs => simp [show ¬(1 ≤ trSpec.frameworkAttemptCompletionPolicy.minFailedTaskCount) by omega]

/-- A succeeded-task threshold below 1 is off: the role yields no candidate. -/
theorem roleSucceededTrigger_off (f : Framework) (trSpec : TaskRoleSpec)
    (h : trSpec.frameworkAttemptCompletionPolicy.minSucceededTaskCount < 1) :
    roleSucceededTrigger f trSpec = none := by
  unfold roleSucceededTrigger
  cases f.getTaskRoleStatus trSpec.name with
  | none => rfl
  | some trs => simp [show ¬(1 ≤ trSpec.frameworkAttemptCompletionPolicy.minSucceededTaskCount) by omega]

/-- When the failed threshold is on and met, the role candidate is exactly its
threshold-th earliest-completed failed task. -/
theorem roleFailedTrigger_fires (f : Framework) (trSpec : TaskRoleSpec)
    (trs : TaskRoleStatus)
    (hrs : f.getTaskRoleStatus trSpec.name = some trs)
    (h1 : 1 ≤ trSpec.frameworkAttemptCompletionPolicy.minFailedTaskCount)
    (h2 : trSpec.frameworkAttemptCompletionPolicy.minFailedTaskCount
      ≤ (trs.getTaskCountStatus failedTaskSelector : Int)) :
    ∃ trigger,
      trs.completionTimeOrderedTaskStatus failedTaskSelector
        (trSpec.frameworkAttemptCompletionPolicy.minFailedTaskCount - 1).toNat
        = some trigger
      ∧ roleFailedTrigger f trSpec
        = some (trigger.completionTime,
            newFailedTaskTriggeredCompletionStatus trigger trSpec.name
              (trs.getTaskCountStatus failedTaskSelector)
              trSpec.frameworkAttemptCompletionPolicy.minFailedTaskCount) := by
  have hk : (trSpec.frameworkAttemptCompletionPolicy.minFailedTaskCount - 1).toNat
      < trs.getTaskCountStatus failedTaskSelector := by omega
  have hlen : (sortByCompletionTime (trs.taskStatuses.filter failedTaskSelector)).length
      = trs.getTaskCountStatus failedTaskSelector := by
    rw [length_sortByCompletionTime]
    rfl
  cases hx : trs.completionTimeOrderedTaskStatus failedTaskSelector
      (trSpec.frameworkAttemptCompletionPolicy.minFailedTaskCount - 1).toNat with
  | none =>
    unfold TaskRoleStatus.completionTimeOrderedTaskStatus at hx
    have := List.get?_eq_none.mp hx
    omega
  | some trigger =>
    refine ⟨trigger, rfl, ?_⟩
    unfold roleFailedTrigger
    rw [hrs]
    simp only [if_pos h1, if_pos h2, hx]

/-- When the succeeded threshold is on and met, the role candidate is exactly
its threshold-th earliest-completed succeeded task. -/
theorem roleSucceededTrigger_fires (f : Framework) (trSpec : TaskRoleSpec)
    (trs : TaskRoleStatus)
    (hrs : f.getTaskRoleStatus trSpec.name = some trs)
    (h1 : 1 ≤ trSpec.frameworkAttemptCompletionPolicy.minSucceededTaskCount)
    (h2 : trSpec.frameworkAttemptCompletionPolicy.minSucceededTaskCount
      ≤ (trs.getTaskCountStatus succeededTaskSelector : Int)) :
    ∃ trigger,
      trs.completionTimeOrderedTaskStatus succeededTaskSelector
        (trSpec.frameworkAttemptCompletionPolicy.minSucceededTaskCount - 1).toNat
        = some trigger
      ∧ roleSucceededTrigger f trSpec
        = some (trigger.completionTime,
            newSucceededTaskTriggeredCompletionStatus trigger trSpec.name
              (trs.getTaskCountStatus succeededTaskSelector)
              trSpec.frameworkAttemptCompletionPolicy.minSucceededTaskCount) := by
  have hk : (trSpec.frameworkAttemptCompletionPolicy.minSucceededTaskCount - 1).toNat
      < trs.getTaskCountStatus succeededTaskSelector := by omega
  have hlen : (sortByCompletionTime (trs.taskStatuses.filter succeededTaskSelector)).length
      = trs.getTaskCountStatus succeededTaskSelector := by
    rw [length_sortByCompletionTime]
    rfl
  cases hx : trs.completionTimeOrderedTaskStatus succeededTaskSelector
      (trSpec.frameworkAttemptCompletionPolicy.minSucceededTaskCount - 1).toNat with
  | none =>
    unfold TaskRoleStatus.completionTimeOrderedTaskStatus at hx
    have := List.get?_eq_none.mp hx
    omega
  | some trigger =>
    refine ⟨trigger, rfl, ?_⟩
    unfold roleSucceededTrigger
    rw [hrs]
    simp only [if_pos h1, if_pos h2, hx]

/-- A fired role candidate is a member of the candidate list. -/
theorem mem_candidates_of_roleTrigger (f : Framework) (trSpec : TaskRoleSpec)
    (x : Int × FrameworkAttemptCompletionStatus)
    (hs : trSpec ∈ f.spec.taskRoles)
    (h : roleFailedTrigger f trSpec = some x ∨ roleSucceededTrigger f trSpec = some x) :
    x ∈ completionPolicyCandidates f := by
  unfold completionPolicyCandidates
  refine List.mem_flatMap.mpr ⟨trSpec, hs, ?_⟩
  cases h with
  | inl h => simp [h]
  | inr h => simp [h]

/-- C1: on a not-completing framework attempt, a per-role threshold below 1
never produces a trigger; a met threshold makes the role's threshold-th
earliest-completed failed (resp. succeeded) task a trigger candidate; and the
first phase of the completion-policy sync fires iff there is a candidate,
completing the attempt with a candidate of minimal completion time. -/
theorem completionPolicy_earliest_trigger_wins (f : Framework) (now : Int)
    (_hnc : f.isCompleting = false)
    (hcs : f.status.attemptStatus.completionStatus = none) :
    (∀ trSpec ∈ f.spec.taskRoles,
        (trSpec.frameworkAttemptCompletionPolicy.minFailedTaskCount < 1 →
          roleFailedTrigger f trSpec = none)
        ∧ (trSpec.frameworkAttemptCompletionPolicy.minSucceededTaskCount < 1 →
          roleSucceededTrigger f trSpec = none))
    ∧ (∀ trSpec ∈ f.spec.taskRoles, ∀ trs,
        f.getTaskRoleStatus trSpec.name = some trs →
        1 ≤ trSpec.frameworkAttemptCompletionPolicy.minFailedTaskCount →
        trSpec.frameworkAttemptCompletionPolicy.minFailedTaskCount
          ≤ (trs.getTaskCountStatus failedTaskSelector : Int) →
        ∃ trigger,
          trs.completionTimeOrderedTaskStatus failedTaskSelector
            (trSpec.frameworkAttemptCompletionPolicy.minFailedTaskCount - 1).toNat
            = some trigger
          ∧ (trigger.completionTime,
              newFailedTaskTriggeredCompletionStatus trigger trSpec.name
                (trs.getTaskCountStatus failedTaskSelector)
                trSpec.frameworkAttemptCompletionPolicy.minFailedTaskCount)
              ∈ completionPolicyCandidates f)
    ∧ (∀ trSpec ∈ f.spec.taskRoles, ∀ trs,
        f.getTaskRoleStatus trSpec.name = some trs →
        1 ≤ trSpec.frameworkAttemptCompletionPolicy.minSucceededTaskCount →
        trSpec.frameworkAttemptCompletionPolicy.minSucceededTaskCount
          ≤ (trs.getTaskCountStatus succeededTaskSelector : Int) →
        ∃ trigger,
          trs.completionTimeOrderedTaskStatus succeededTaskSelector
            (trSpec.frameworkAttemptCompletionPolicy.minSucceededTaskCount - 1).toNat
            = some trigger
          ∧ (trigger.completionTime,
              newSucceededTaskTriggeredCompletionStatus trigger trSpec.name
                (trs.getTaskCountStatus succeededTaskSelector)
                trSpec.frameworkAttemptCompletionPolicy.minSucceededTaskCount)
              ∈ completionPolicyCandidates f)
    ∧ (completionPolicyFirstTrigger f = none ↔ completionPolicyCandidates f = [])
    ∧ (∀ t cs, completionPolicyFirstTrigger f = some (t, cs) →
        (t, cs) ∈ completionPolicyCandidates f
        ∧ (∀ c ∈ completionPolicyCandidates f, t ≤ c.1)
        ∧ (syncFrameworkAttemptCompletionPolicy f now).1.status.attemptStatus.completionStatus
            = some cs
        ∧ (syncFrameworkAttemptCompletionPolicy f now).1.status.state
            = FrameworkState.frameworkAttemptDeletionPending) := by
  refine ⟨?_, ?_, ?_, ?_, ?_⟩
  · intro trSpec _
    exact ⟨roleFailedTrigger_off f trSpec, roleSucceededTrigger_off f trSpec⟩
  · intro trSpec hsp trs hrs h1 h2
    obtain ⟨trigger, hord, hrole⟩ := roleFailedTrigger_fires f trSpec trs hrs h1 h2
    exact ⟨trigger, hord, mem_candidates_of_roleTrigger f trSpec _ hsp (Or.inl hrole)⟩
  · intro trSpec hsp trs hrs h1 h2
    obtain ⟨trigger, hord, hrole⟩ := roleSucceededTrigger_fires f trSpec trs hrs h1 h2
    exact ⟨trigger, hord, mem_candidates_of_roleTrigger f trSpec _ hsp (Or.inr hrole)⟩
  · rw [completionPolicyFirstTrigger_eq_fold]
    have h := (foldl_updCand_min (completionPolicyCandidates f) none).1
    rw [h]
    simp
  · intro t cs hft
    have hfold := hft
    rw [completionPolicyFirstTrigger_eq_fold] at hfold
    obtain ⟨hm, hmin, -⟩ := (foldl_updCand_min (completionPolicyCandidates f) none).2 (t, cs) hfold
    have hmem : (t, cs) ∈ completionPolicyCandidates f := by
      cases hm with
      | inl h => cases h
      | inr h => exact h
    refine ⟨hmem, hmin, ?_, ?_⟩
    · unfold syncFrameworkAttemptCompletionPolicy
      rw [hft]
      rw [completionStatus_completeFrameworkAttempt]
      simp [hcs]
    · unfold syncFrameworkAttemptCompletionPolicy
      rw [hft]
      rw [completeFrameworkAttempt_state]
      rfl

/-- C1 witness: on the concrete framework the succeeded threshold of the
worker role fires and the sync completes the attempt with it. -/
theorem completionPolicy_earliest_trigger_wins_witness :
    ((5 : Int), newSucceededTaskTriggeredCompletionStatus exTask1 "worker" 1 1)
        ∈ completionPolicyCandidates exF
      ∧ (∀ c ∈ completionPolicyCandidates exF, (5 : Int) ≤ c.1)
      ∧ (syncFrameworkAttemptCompletionPolicy exF 6).1.status.attemptStatus.completionStatus
          = some (newSucceededTaskTriggeredCompletionStatus exTask1 "worker" 1 1)
      ∧ (syncFrameworkAttemptCompletionPolicy exF 6).1.status.state
          = FrameworkState.frameworkAttemptDeletionPending :=
  (completionPolicy_earliest_trigger_wins exF 6 rfl rfl).2.2.2.2
    5 (newSucceededTaskTriggeredCompletionStatus exTask1 "worker" 1 1) (by decide)

/-- Membership in the list view of an optional value. -/
theorem mem_option_toList {α : Type} (o : Option α) (x : α) :
    x ∈ o.toList ↔ o = some x := by
  cases o <;> simp [Option.toList, eq_comm]

/-- The last element of the sorted-by-completion-time list is a maximum. -/
theorem sortByCompletionTime_last_max (l : List TaskStatus) (n : Nat)
    (hn : l.length = n + 1) :
    ∃ t, (sortByCompletionTime l).get? n = some t ∧ t ∈ l
      ∧ ∀ u ∈ l, u.completionTime ≤ t.completionTime := by
  have hlen : (sortByCompletionTime l).length = n + 1 := by
    rw [length_sortByCompletionTime, hn]
  have hidx : n < (sortByCompletionTime l).length := by omega
  obtain ⟨t, ht⟩ : ∃ t, (sortByCompletionTime l).get? n = some t := by
    cases hx : (sortByCompletionTime l).get? n with
    | none =>
      have := List.get?_eq_none.mp hx
      omega
    | some t => exact ⟨t, rfl⟩
  have htget : (sortByCompletionTime l).get ⟨n, hidx⟩ = t := by
    have h2 := List.get?_eq_get hidx
    rw [ht] at h2
    exact (Option.some_injective _ h2).symm
  refine ⟨t, ht, ?_, ?_⟩
  · exact (mem_sortByCompletionTime l t).mp (List.get?_mem ht)
  · intro u hu
    obtain ⟨⟨i, hi⟩, hgu⟩ := List.mem_iff_get.mp ((mem_sortByCompletionTime l u).mpr hu)
    have hpair := List.pairwise_iff_get.mp (sorted_sortByCompletionTime l)
    by_cases hin : i < n
    · have h3 := hpair ⟨i, hi⟩ ⟨n, hidx⟩ (Fin.mk_lt_mk.mpr hin)
      rw [hgu, htget] at h3
      exact h3
    · have hieq : i = n := by omega
      have hut : u = t := by
        rw [← hgu, ← htget]
        congr 1
        exact Fin.ext hieq
      rw [hut]

/-- Under the scale invariant (completed count equals the declared task
number), the role candidate of the all-tasks-completed phase is the role's
latest-completed task. -/
theorem roleLastCompleted_max (f : Framework) (trSpec : TaskRoleSpec)
    (trs : TaskRoleStatus)
    (hrs : f.getTaskRoleStatus trSpec.name = some trs)
    (hcount : trs.getTaskCountStatus completedTaskSelector = trSpec.taskNumber)
    (hpos : 0 < trSpec.taskNumber) :
    ∃ t, roleLastCompleted f trSpec = some (trSpec.name, t)
      ∧ t ∈ trs.taskStatuses.filter completedTaskSelector
      ∧ ∀ u ∈ trs.taskStatuses.filter completedTaskSelector,
          u.completionTime ≤ t.completionTime := by
  have hn : (trs.taskStatuses.filter completedTaskSelector).length
      = (trSpec.taskNumber - 1) + 1 := by
    have : trs.getTaskCountStatus completedTaskSelector
        = (trs.taskStatuses.filter completedTaskSelector).length := rfl
    omega
  obtain ⟨t, ht, htm, htmax⟩ :=
    sortByCompletionTime_last_max (trs.taskStatuses.filter completedTaskSelector)
      (trSpec.taskNumber - 1) hn
  refine ⟨t, ?_, htm, htmax⟩
  unfold roleLastCompleted
  rw [hrs]
  have hz : (trSpec.taskNumber == 0) = false := by
    simp
    omega
  rw [hz]
  simp only [Bool.false_eq_true, if_false]
  unfold TaskRoleStatus.completionTimeOrderedTaskStatus
  rw [ht]

/-- The keep-latest update always holds a value with the stated maximality
facts. -/
theorem updLast_some_spec (acc : Option (String × TaskStatus))
    (c : String × TaskStatus) :
    ∃ a, updLast acc (some c) = some a
      ∧ (a = c ∨ acc = some a)
      ∧ c.2.completionTime ≤ a.2.completionTime
      ∧ (∀ b, acc = some b → b.2.completionTime ≤ a.2.completionTime) := by
  cases acc with
  | none =>
    refine ⟨c, rfl, Or.inl rfl, le_refl _, ?_⟩
    intro b hb
    cases hb
  | some a0 =>
    by_cases h : a0.2.completionTime < c.2.completionTime
    · refine ⟨c, by simp [updLast, h], Or.inl rfl, le_refl _, ?_⟩
      intro b hb
      injection hb with hb
      rw [← hb]
      exact le_of_lt h
    · refine ⟨a0, by simp [updLast, h], Or.inr rfl, by omega, ?_⟩
      intro b hb
      injection hb with hb
      rw [← hb]

/-- Folding the keep-latest update over a candidate list returns none iff
there was nothing to pick, and otherwise picks a maximum. -/
theorem foldl_updLast_max (l : List (String × TaskStatus)) :
    ∀ acc : Option (String × TaskStatus),
      ((l.foldl (fun acc c => updLast acc (some c)) acc = none)
          ↔ (acc = none ∧ l = []))
      ∧ (∀ p, l.foldl (fun acc c => updLast acc (some c)) acc = some p →
          ((acc = some p ∨ p ∈ l)
            ∧ (∀ c ∈ l, c.2.completionTime ≤ p.2.completionTime)
            ∧ (∀ a, acc = some a → a.2.completionTime ≤ p.2.completionTime))) := by
  induction l with
  | nil =>
    intro acc
    constructor
    · simp
    · intro p hp
      simp only [List.foldl_nil] at hp
      refine ⟨Or.inl hp, by simp, ?_⟩
      intro a ha
      rw [hp] at ha
      injection ha with ha
      rw [ha]
  | cons c rest ih =>
    intro acc
    obtain ⟨a, hEq, hmem, hle, hbnd⟩ := updLast_some_spec acc c
    constructor
    · constructor
      · intro hnone
        rw [List.foldl_cons, hEq] at hnone
        have h2 := ((ih (some a)).1).mp hnone
        exact absurd h2.1 (by simp)
      · rintro ⟨-, h⟩
        cases h
    · intro p hp
      rw [List.foldl_cons, hEq] at hp
      obtain ⟨hm, hl, hb⟩ := (ih (some a)).2 p hp
      have hpa : a.2.completionTime ≤ p.2.completionTime := hb a rfl
      refine ⟨?_, ?_, ?_⟩
      · cases hm with
        | inl h =>
          injection h with h
          cases hmem with
          | inl hc =>
            rw [← h, hc]
            exact Or.inr (List.mem_cons_self c rest)
          | inr hacc =>
            rw [h] at hacc
            exact Or.inl hacc
        | inr h => exact Or.inr (List.mem_cons_of_mem c h)
      · intro c' hc'
        cases List.mem_cons.mp hc' with
        | inl h =>
          rw [h]
          exact le_trans hle hpa
        | inr h => exact hl c' h
      · intro b hbacc
        exact le_trans (hbnd b hbacc) hpa

/-- The last-completed loop folds exactly over the per-role candidates. -/
theorem completionPolicyLastTrigger_eq_fold (f : Framework) :
    completionPolicyLastTrigger f
      = (completionPolicyLastCandidates f).foldl
          (fun acc c => updLast acc (some c)) none := by
  unfold completionPolicyLastTrigger completionPolicyLastCandidates
  generalize f.spec.taskRoles = l
  suffices h : ∀ acc, l.foldl (fun acc trSpec => updLast acc (roleLastCompleted f trSpec)) acc
      = (l.flatMap (fun trSpec => (roleLastCompleted f trSpec).toList)).foldl
          (fun acc c => updLast acc (some c)) acc from h none
  induction l with
  | nil => intro acc; rfl
  | cons s rest ih =>
    intro acc
    have hstep : ∀ (acc' : Option (String × TaskStatus)) (o : Option (String × TaskStatus)),
        (o.toList).foldl (fun acc c => updLast acc (some c)) acc' = updLast acc' o := by
      intro acc' o
      cases o <;> rfl
    rw [List.foldl_cons, List.flatMap_cons, List.foldl_append, hstep]
    exact ih _

/-- Under the scale invariant, a role yields no last-completed candidate iff
it has no completed task at all. -/
theorem roleLastCompleted_none_iff (f : Framework) (trSpec : TaskRoleSpec)
    (trs : TaskRoleStatus)
    (hrs : f.getTaskRoleStatus trSpec.name = some trs)
    (hcount : trs.getTaskCountStatus completedTaskSelector = trSpec.taskNumber) :
    (roleLastCompleted f trSpec = none)
      ↔ (trs.taskStatuses.filter completedTaskSelector = []) := by
  constructor
  · intro hnone
    by_contra hne
    have hpos : 0 < trSpec.taskNumber := by
      have h0 : trs.getTaskCountStatus completedTaskSelector ≠ 0 := by
        unfold TaskRoleStatus.getTaskCountStatus
        simpa [List.length_eq_zero] using hne
      omega
    obtain ⟨t, hsome, -, -⟩ := roleLastCompleted_max f trSpec trs hrs hcount hpos
    rw [hnone] at hsome
    cases hsome
  · intro hempty
    have h0 : trSpec.taskNumber = 0 := by
      have : trs.getTaskCountStatus completedTaskSelector = 0 := by
        unfold TaskRoleStatus.getTaskCountStatus
        rw [hempty]
        rfl
      omega
    unfold roleLastCompleted
    rw [hrs]
    simp [h0]

/-- C8: with no per-role threshold trigger and every declared task completed,
the completion-policy sync completes the attempt non-forced (the framework
enters FrameworkAttemptDeletionPending) with a CompletedTaskTriggeredCompletion
status whose trigger is the latest-completed task across all spec roles, roles
with zero declared tasks contributing no trigger. -/
theorem completionPolicy_all_tasks_completed (f : Framework) (now : Int)
    (_hnc : f.isCompleting = false)
    (hcs : f.status.attemptStatus.completionStatus = none)
    (hfirst : completionPolicyFirstTrigger f = none)
    (hroles : ∀ trSpec ∈ f.spec.taskRoles, ∃ trs,
        f.getTaskRoleStatus trSpec.name = some trs
        ∧ trs.getTaskCountStatus completedTaskSelector = trSpec.taskNumber)
    (hge : f.spec.getTotalTaskCountSpec ≤ f.getTaskCountStatus completedTaskSelector) :
    ((syncFrameworkAttemptCompletionPolicy f now).1.status.attemptStatus.completionStatus
        = some (newCompletedTaskTriggeredCompletionStatus (completionPolicyLastTrigger f)
            (f.getTaskCountStatus completedTaskSelector) f.spec.getTotalTaskCountSpec)
      ∧ (syncFrameworkAttemptCompletionPolicy f now).2 = true
      ∧ (syncFrameworkAttemptCompletionPolicy f now).1.status.state
          = FrameworkState.frameworkAttemptDeletionPending)
    ∧ (∀ trSpec ∈ f.spec.taskRoles, trSpec.taskNumber = 0 →
        roleLastCompleted f trSpec = none)
    ∧ ((completionPolicyLastTrigger f = none) ↔ (completedTasksOfSpecRoles f = []))
    ∧ (∀ p, completionPolicyLastTrigger f = some p →
        p ∈ completedTasksOfSpecRoles f
        ∧ ∀ q ∈ completedTasksOfSpecRoles f,
            q.2.completionTime ≤ p.2.completionTime) := by
  refine ⟨?_, ?_, ?_, ?_⟩
  · unfold syncFrameworkAttemptCompletionPolicy
    rw [hfirst]
    simp only [if_pos hge]
    refine ⟨?_, by trivial, ?_⟩
    · rw [completionStatus_completeFrameworkAttempt]
      simp [hcs]
    · rw [completeFrameworkAttempt_state]
      rfl
  · intro trSpec _ h0
    unfold roleLastCompleted
    cases f.getTaskRoleStatus trSpec.name with
    | none => rfl
    | some trs => simp [h0]
  · rw [completionPolicyLastTrigger_eq_fold]
    rw [(foldl_updLast_max (completionPolicyLastCandidates f) none).1]
    simp only [true_and]
    unfold completionPolicyLastCandidates completedTasksOfSpecRoles
    rw [List.flatMap_eq_nil_iff, List.flatMap_eq_nil_iff]
    constructor
    · intro h trSpec hsp
      obtain ⟨trs, hrs, hcount⟩ := hroles trSpec hsp
      rw [hrs]
      have hnone : roleLastCompleted f trSpec = none := by
        have := h trSpec hsp
        cases hx : roleLastCompleted f trSpec with
        | none => rfl
        | some p =>
          rw [hx] at this
          cases this
      have hempty := (roleLastCompleted_none_iff f trSpec trs hrs hcount).mp hnone
      simp [hempty]
    · intro h trSpec hsp
      obtain ⟨trs, hrs, hcount⟩ := hroles trSpec hsp
      have h2 := h trSpec hsp
      rw [hrs] at h2
      have hempty : trs.taskStatuses.filter completedTaskSelector = [] := by
        simpa using h2
      rw [(roleLastCompleted_none_iff f trSpec trs hrs hcount).mpr hempty]
      rfl
  · intro p hp
    have hfold := hp
    rw [completionPolicyLastTrigger_eq_fold] at hfold
    obtain ⟨hm, hmax, -⟩ :=
      (foldl_updLast_max (completionPolicyLastCandidates f) none).2 p hfold
    have hmem : p ∈ completionPolicyLastCandidates f := by
      cases hm with
      | inl h => cases h
      | inr h => exact h
    obtain ⟨trSpec, hsp, hto⟩ := List.mem_flatMap.mp hmem
    have hrole : roleLastCompleted f trSpec = some p :=
      (mem_option_toList _ _).mp hto
    obtain ⟨trs, hrs, hcount⟩ := hroles trSpec hsp
    have hpos : 0 < trSpec.taskNumber := by
      by_contra h0
      have h0' : trSpec.taskNumber = 0 := by omega
      have : roleLastCompleted f trSpec = none := by
        unfold roleLastCompleted
        rw [hrs]
        simp [h0']
      rw [this] at hrole
      cases hrole
    obtain ⟨t, hsome, htmem, htmax⟩ := roleLastCompleted_max f trSpec trs hrs hcount hpos
    have hpt : p = (trSpec.name, t) := by
      rw [hrole] at hsome
      exact Option.some_injective _ hsome
    constructor
    · unfold completedTasksOfSpecRoles
      refine List.mem_flatMap.mpr ⟨trSpec, hsp, ?_⟩
      rw [hrs, hpt]
      exact List.mem_map.mpr ⟨t, htmem, rfl⟩
    · intro q hq
      unfold completedTasksOfSpecRoles at hq
      obtain ⟨trSpec', hsp', hq'⟩ := List.mem_flatMap.mp hq
      obtain ⟨trs', hrs', hcount'⟩ := hroles trSpec' hsp'
      rw [hrs'] at hq'
      obtain ⟨u, humem, hqu⟩ := List.mem_map.mp hq'
      have hpos' : 0 < trSpec'.taskNumber := by
        have h0 : trs'.getTaskCountStatus completedTaskSelector ≠ 0 := by
          unfold TaskRoleStatus.getTaskCountStatus
          intro hlen0
          rw [List.length_eq_zero] at hlen0
          rw [hlen0] at humem
          cases humem
        omega
      obtain ⟨t', hsome', htmem', htmax'⟩ :=
        roleLastCompleted_max f trSpec' trs' hrs' hcount' hpos'
      have hcand' : (trSpec'.name, t') ∈ completionPolicyLastCandidates f := by
        unfold completionPolicyLastCandidates
        refine List.mem_flatMap.mpr ⟨trSpec', hsp', ?_⟩
        exact (mem_option_toList _ _).mpr hsome'
      have hb1 : t'.completionTime ≤ p.2.completionTime := hmax (trSpec'.name, t') hcand'
      have hb2 : u.completionTime ≤ t'.completionTime := htmax' u humem
      rw [← hqu]
      exact le_trans hb2 hb1

/-- C8 witness: on the concrete all-completed framework the sync fires with
the completed-task trigger, which is the latest completed task. -/
theorem completionPolicy_all_tasks_completed_witness :
    ((syncFrameworkAttemptCompletionPolicy exF8 9).1.status.attemptStatus.completionStatus
        = some (newCompletedTaskTriggeredCompletionStatus (completionPolicyLastTrigger exF8)
            (exF8.getTaskCountStatus completedTaskSelector) exF8.spec.getTotalTaskCountSpec)
      ∧ (syncFrameworkAttemptCompletionPolicy exF8 9).2 = true
      ∧ (syncFrameworkAttemptCompletionPolicy exF8 9).1.status.state
          = FrameworkState.frameworkAttemptDeletionPending)
    ∧ (∀ trSpec ∈ exF8.spec.taskRoles, trSpec.taskNumber = 0 →
        roleLastCompleted exF8 trSpec = none)
    ∧ ((completionPolicyLastTrigger exF8 = none) ↔ (completedTasksOfSpecRoles exF8 = []))
    ∧ (∀ p, completionPolicyLastTrigger exF8 = some p →
        p ∈ completedTasksOfSpecRoles exF8
        ∧ ∀ q ∈ completedTasksOfSpecRoles exF8,
            q.2.completionTime ≤ p.2.completionTime) :=
  completionPolicy_all_tasks_completed exF8 9 rfl rfl (by decide)
    (by decide) (by decide)

/-- Marking sets the flag. -/
theorem markAsDeletionPending_dp (ts : TaskStatus) :
    (markAsDeletionPending ts).1.deletionPending = true := by
  unfold markAsDeletionPending
  split <;> simp_all

/-- Marking a range keeps the length. -/
theorem markTasksFrom_length (lo : Nat) (i : Nat) (l : List TaskStatus) :
    (markTasksFrom lo i l).1.length = l.length := by
  induction l generalizing i with
  | nil => rfl
  | cons ts rest ih =>
    unfold markTasksFrom
    by_cases h : lo ≤ i <;> simp [h, ih]

/-- Unfolding equation of range marking on a cons cell. -/
theorem markTasksFrom_cons (lo i : Nat) (ts : TaskStatus) (rest : List TaskStatus) :
    markTasksFrom lo i (ts :: rest)
      = (if lo ≤ i then
          ((markAsDeletionPending ts).1 :: (markTasksFrom lo (i + 1) rest).1,
            (markAsDeletionPending ts).2 || (markTasksFrom lo (i + 1) rest).2)
        else (ts :: (markTasksFrom lo (i + 1) rest).1, (markTasksFrom lo (i + 1) rest).2)) := by
  rfl

/-- Pointwise description of range marking. -/
theorem markTasksFrom_get? (lo : Nat) (i : Nat) (l : List TaskStatus) (j : Nat) :
    (markTasksFrom lo i l).1.get? j
      = (l.get? j).map
          (fun ts => if lo ≤ i + j then (markAsDeletionPending ts).1 else ts) := by
  induction l generalizing i j with
  | nil => cases j <;> rfl
  | cons ts rest ih =>
    rw [markTasksFrom_cons]
    cases j with
    | zero =>
      by_cases h : lo ≤ i <;> simp [h]
    | succ m =>
      have harith : i + 1 + m = i + (m + 1) := by omega
      have hrec := ih (i + 1) m
      rw [harith] at hrec
      by_cases h : lo ≤ i
      · simpa [h] using hrec
      · simpa [h] using hrec

/-- Marking the whole list (from position 0) sets every flag. -/
theorem markTasksFrom_all (i : Nat) (l : List TaskStatus) :
    ∀ ts ∈ (markTasksFrom 0 i l).1, ts.deletionPending = true := by
  induction l generalizing i with
  | nil => intro ts h; cases h
  | cons t rest ih =>
    unfold markTasksFrom
    simp only [Nat.zero_le, if_pos]
    intro ts h
    cases List.mem_cons.mp h with
    | inl h => rw [h]; exact markAsDeletionPending_dp t
    | inr h => exact ih (i + 1) ts h

/-- The existing-role scale step keeps the role name. -/
theorem syncScaleExistingRole_name (n : Nat) (now : Int) (trs : TaskRoleStatus) :
    (syncScaleExistingRole n now trs).1.name = trs.name := by
  simp only [syncScaleExistingRole]
  split
  · rfl
  · split <;> rfl

/-- The existing-role scale step reaches at least the declared count. -/
theorem syncScaleExistingRole_len (n : Nat) (now : Int) (trs : TaskRoleStatus) :
    n ≤ (syncScaleExistingRole n now trs).1.taskStatuses.length := by
  simp only [syncScaleExistingRole]
  split
  · show n ≤ (trs.taskStatuses ++
      (List.range (n - trs.taskStatuses.length)).map
        (fun k => newTaskStatus (trs.taskStatuses.length + k) now)).length
    rw [List.length_append, List.length_map, List.length_range]
    omega
  · split
    · show n ≤ (markTasksFrom n 0 trs.taskStatuses).1.length
      rw [markTasksFrom_length]
      omega
    · show n ≤ trs.taskStatuses.length
      omega

/-- After the existing-role scale step, every task at or beyond the declared
count is deletion pending. -/
theorem syncScaleExistingRole_tail (n : Nat) (now : Int) (trs : TaskRoleStatus) :
    ∀ i ts, n ≤ i →
      (syncScaleExistingRole n now trs).1.taskStatuses.get? i = some ts →
      ts.deletionPending = true := by
  intro i ts hni hget
  simp only [syncScaleExistingRole] at hget
  split at hget
  · -- scale up: the list has length exactly n, so no position at or beyond n
    rename_i hlt
    obtain ⟨hbound, -⟩ := List.get?_eq_some.mp hget
    have hb2 : i < (trs.taskStatuses ++
        (List.range (n - trs.taskStatuses.length)).map
          (fun k => newTaskStatus (trs.taskStatuses.length + k) now)).length := hbound
    rw [List.length_append, List.length_map, List.length_range] at hb2
    omega
  · split at hget
    · have hget2 : (markTasksFrom n 0 trs.taskStatuses).1.get? i = some ts := hget
      rw [markTasksFrom_get? n 0 trs.taskStatuses i] at hget2
      cases hx : trs.taskStatuses.get? i with
      | none =>
        rw [hx] at hget2
        cases hget2
      | some ts0 =>
        rw [hx] at hget2
        simp only [Option.map_some'] at hget2
        rw [if_pos (show n ≤ 0 + i by omega)] at hget2
        injection hget2 with hget2
        rw [← hget2]
        exact markAsDeletionPending_dp ts0
    · -- counts equal: no position at or beyond n exists
      rename_i hnlt hnge
      have hget2 : trs.taskStatuses.get? i = some ts := hget
      obtain ⟨hbound, -⟩ := List.get?_eq_some.mp hget2
      omega

/-- find? for the updated name returns the transformed role, when the
transformation keeps the name. -/
theorem find?_updateFirstRoleWith_self (nm : String)
    (g : TaskRoleStatus → TaskRoleStatus × Bool)
    (hname : ∀ trs, (g trs).1.name = trs.name) (l : List TaskRoleStatus) :
    (updateFirstRoleWith nm g l).1.find? (fun trs => trs.name == nm)
      = (l.find? (fun trs => trs.name == nm)).map (fun y => (g y).1) := by
  induction l with
  | nil => rfl
  | cons trs rest ih =>
    by_cases h : trs.name == nm
    · simp [updateFirstRoleWith, h, List.find?, hname trs]
    · simp only [updateFirstRoleWith, h, Bool.false_eq_true, if_false, List.find?]
      exact ih

/-- find? for a different name ignores the update. -/
theorem find?_updateFirstRoleWith_ne (nm name' : String)
    (g : TaskRoleStatus → TaskRoleStatus × Bool)
    (hname : ∀ trs, (g trs).1.name = trs.name) (hne : name' ≠ nm)
    (l : List TaskRoleStatus) :
    (updateFirstRoleWith nm g l).1.find? (fun trs => trs.name == name')
      = l.find? (fun trs => trs.name == name') := by
  induction l with
  | nil => rfl
  | cons trs rest ih =>
    by_cases h : trs.name == nm
    · have h1 : trs.name = nm := by simpa using h
      have h2 : ((g trs).1.name == name') = false := by
        simp [hname trs, h1]
        exact fun hc => hne hc.symm
      have h3 : (trs.name == name') = false := by
        simp [h1]
        exact fun hc => hne hc.symm
      simp [updateFirstRoleWith, h, List.find?, h2, h3]
    · simp only [updateFirstRoleWith, h, Bool.false_eq_true, if_false, List.find?]
      cases h4 : trs.name == name'
      · simpa [h4] using ih
      · simp [h4]

/-- The update keeps the role-name list. -/
theorem names_updateFirstRoleWith (nm : String)
    (g : TaskRoleStatus → TaskRoleStatus × Bool)
    (hname : ∀ trs, (g trs).1.name = trs.name) (l : List TaskRoleStatus) :
    (updateFirstRoleWith nm g l).1.map TaskRoleStatus.name
      = l.map TaskRoleStatus.name := by
  induction l with
  | nil => rfl
  | cons trs rest ih =>
    by_cases h : trs.name == nm
    · simp [updateFirstRoleWith, h, hname trs]
    · simp only [updateFirstRoleWith, h, Bool.false_eq_true, if_false, List.map_cons]
      rw [ih]

/-- After processing a spec role, its status role exists with at least the
declared number of task slots and with every slot at or beyond the declared
count marked deletion pending. -/
theorem syncScaleSpecRoleStep_self (now : Int) (trss : List TaskRoleStatus)
    (b : Bool) (s : TaskRoleSpec) :
    ∃ trs', ((syncScaleSpecRoleStep now (trss, b) s).1).find?
          (fun trs => trs.name == s.name) = some trs'
      ∧ s.taskNumber ≤ trs'.taskStatuses.length
      ∧ (∀ i ts, s.taskNumber ≤ i → trs'.taskStatuses.get? i = some ts →
          ts.deletionPending = true) := by
  cases hfind : trss.find? (fun trs => trs.name == s.name) with
  | none =>
    simp only [syncScaleSpecRoleStep, hfind]
    refine ⟨{ name := s.name
              podGracefulDeletionTimeoutSec := none
              taskStatuses := (List.range s.taskNumber).map (fun k => newTaskStatus k now) },
      ?_, ?_, ?_⟩
    · rw [List.find?_append, hfind]
      simp [List.find?]
    · simp
    · intro i ts hni hget
      obtain ⟨hbound, -⟩ := List.get?_eq_some.mp hget
      simp only [List.length_map, List.length_range] at hbound
      omega
  | some y =>
    simp only [syncScaleSpecRoleStep, hfind]
    rw [find?_updateFirstRoleWith_self s.name _
      (fun trs => syncScaleExistingRole_name s.taskNumber now trs) trss, hfind]
    exact ⟨(syncScaleExistingRole s.taskNumber now y).1, rfl,
      syncScaleExistingRole_len s.taskNumber now y,
      syncScaleExistingRole_tail s.taskNumber now y⟩

/-- Processing a spec role leaves the lookup of every other role name
unchanged. -/
theorem syncScaleSpecRoleStep_ne (now : Int) (trss : List TaskRoleStatus)
    (b : Bool) (s : TaskRoleSpec) (name' : String) (hne : name' ≠ s.name) :
    ((syncScaleSpecRoleStep now (trss, b) s).1).find? (fun trs => trs.name == name')
      = trss.find? (fun trs => trs.name == name') := by
  cases hfind : trss.find? (fun trs => trs.name == s.name) with
  | none =>
    simp only [syncScaleSpecRoleStep, hfind]
    rw [List.find?_append]
    have hne2 : (s.name == name') = false := by
      simp only [beq_eq_false_iff_ne]
      exact fun h => hne h.symm
    simp only [List.find?, hne2]
    cases trss.find? (fun trs => trs.name == name') <;> rfl
  | some y =>
    simp only [syncScaleSpecRoleStep, hfind]
    exact find?_updateFirstRoleWith_ne s.name name' _
      (fun trs => syncScaleExistingRole_name s.taskNumber now trs) hne trss

/-- Processing a spec role keeps the status role names without duplicates. -/
theorem syncScaleSpecRoleStep_nodup (now : Int) (trss : List TaskRoleStatus)
    (b : Bool) (s : TaskRoleSpec)
    (hnd : (trss.map TaskRoleStatus.name).Nodup) :
    (((syncScaleSpecRoleStep now (trss, b) s).1).map TaskRoleStatus.name).Nodup := by
  cases hfind : trss.find? (fun trs => trs.name == s.name) with
  | none =>
    simp only [syncScaleSpecRoleStep, hfind]
    rw [List.map_append]
    have hnotin : s.name ∉ trss.map TaskRoleStatus.name := by
      intro hmem
      obtain ⟨x, hx, hxn⟩ := List.mem_map.mp hmem
      have hnone := List.find?_eq_none.mp hfind x hx
      simp [hxn] at hnone
    simp [List.nodup_append, hnd, hnotin]
  | some y =>
    simp only [syncScaleSpecRoleStep, hfind]
    rw [names_updateFirstRoleWith _ _
      (fun trs => syncScaleExistingRole_name s.taskNumber now trs)]
    exact hnd

/-- The whole first loop leaves the lookup of names outside the spec
unchanged. -/
theorem phaseA_other_names (now : Int) (l : List TaskRoleSpec) :
    ∀ (trss : List TaskRoleStatus) (b : Bool) (name' : String),
      name' ∉ l.map TaskRoleSpec.name →
      ((l.foldl (syncScaleSpecRoleStep now) (trss, b)).1).find?
          (fun trs => trs.name == name')
        = trss.find? (fun trs => trs.name == name') := by
  induction l with
  | nil =>
    intro trss b name' _
    rfl
  | cons s rest ih =>
    intro trss b name' hnot
    have hne : name' ≠ s.name := by
      intro h
      exact hnot (by simp [h])
    have hnot' : name' ∉ rest.map TaskRoleSpec.name := by
      intro h
      exact hnot (by simp [h])
    rw [List.foldl_cons]
    have ih2 := ih (syncScaleSpecRoleStep now (trss, b) s).1
      (syncScaleSpecRoleStep now (trss, b) s).2 name' hnot'
    have hpres := syncScaleSpecRoleStep_ne now trss b s name' hne
    exact ih2.trans hpres

/-- The whole first loop keeps the status role names without duplicates. -/
theorem phaseA_nodup (now : Int) (l : List TaskRoleSpec) :
    ∀ (trss : List TaskRoleStatus) (b : Bool),
      (trss.map TaskRoleStatus.name).Nodup →
      (((l.foldl (syncScaleSpecRoleStep now) (trss, b)).1).map TaskRoleStatus.name).Nodup := by
  induction l with
  | nil =>
    intro trss b hnd
    exact hnd
  | cons s rest ih =>
    intro trss b hnd
    rw [List.foldl_cons]
    have hnd1 := syncScaleSpecRoleStep_nodup now trss b s hnd
    exact ih (syncScaleSpecRoleStep now (trss, b) s).1
      (syncScaleSpecRoleStep now (trss, b) s).2 hnd1

/-- After the whole first loop, every spec role has a status role with at
least the declared number of slots and its excess slots deletion pending. -/
theorem phaseA_self (now : Int) (l : List TaskRoleSpec) :
    ∀ (trss : List TaskRoleStatus) (b : Bool),
      (l.map TaskRoleSpec.name).Nodup →
      ∀ s ∈ l, ∃ trs',
        ((l.foldl (syncScaleSpecRoleStep now) (trss, b)).1).find?
            (fun trs => trs.name == s.name) = some trs'
        ∧ s.taskNumber ≤ trs'.taskStatuses.length
        ∧ (∀ i ts, s.taskNumber ≤ i → trs'.taskStatuses.get? i = some ts →
            ts.deletionPending = true) := by
  induction l with
  | nil =>
    intro trss b _ s hs
    cases hs
  | cons s0 rest ih =>
    intro trss b hnd s hs
    rw [List.foldl_cons]
    cases List.mem_cons.mp hs with
    | inl heq =>
      subst heq
      obtain ⟨trs', hfind, hlen, htail⟩ := syncScaleSpecRoleStep_self now trss b s
      have hnot : s.name ∉ rest.map TaskRoleSpec.name := by
        simp only [List.map_cons, List.nodup_cons] at hnd
        exact hnd.1
      have htrans := phaseA_other_names now rest
        (syncScaleSpecRoleStep now (trss, b) s).1
        (syncScaleSpecRoleStep now (trss, b) s).2 s.name hnot
      exact ⟨trs', htrans.trans hfind, hlen, htail⟩
    | inr hrest =>
      have hnd' : (rest.map TaskRoleSpec.name).Nodup := by
        simp only [List.map_cons, List.nodup_cons] at hnd
        exact hnd.2
      exact ih (syncScaleSpecRoleStep now (trss, b) s0).1
        (syncScaleSpecRoleStep now (trss, b) s0).2 hnd' s hrest

/-- The second-loop step keeps the role name. -/
theorem markRoleNotInSpec_name (spec : FrameworkSpec) (trs : TaskRoleStatus) :
    (markRoleNotInSpec spec trs).1.name = trs.name := by
  simp only [markRoleNotInSpec]
  split <;> rfl

/-- The second loop is a per-role map. -/
theorem syncScaleDownNotInSpec_fst (spec : FrameworkSpec)
    (trss : List TaskRoleStatus) :
    (syncScaleDownNotInSpec spec trss).1
      = trss.map (fun trs => (markRoleNotInSpec spec trs).1) := by
  simp only [syncScaleDownNotInSpec, List.map_map]
  rfl

/-- Lookup after the second loop: the found role is its marked version. -/
theorem find?_syncScaleDownNotInSpec (spec : FrameworkSpec)
    (trss : List TaskRoleStatus) (name' : String) :
    (syncScaleDownNotInSpec spec trss).1.find? (fun trs => trs.name == name')
      = (trss.find? (fun trs => trs.name == name')).map
          (fun trs => (markRoleNotInSpec spec trs).1) := by
  rw [syncScaleDownNotInSpec_fst, List.find?_map]
  have hfun : ((fun trs => trs.name == name') ∘ fun trs => (markRoleNotInSpec spec trs).1)
      = (fun trs => trs.name == name') := by
    funext trs
    simp [Function.comp, markRoleNotInSpec_name]
  rw [hfun]

/-- A role absent from the spec leaves the second loop with every task
deletion pending. -/
theorem markRoleNotInSpec_all (spec : FrameworkSpec) (trs : TaskRoleStatus)
    (h : spec.getTaskRoleSpec trs.name = none) :
    ∀ ts ∈ (markRoleNotInSpec spec trs).1.taskStatuses,
      ts.deletionPending = true := by
  simp only [markRoleNotInSpec, h]
  exact markTasksFrom_all 0 trs.taskStatuses

/-- A role present in the spec passes the second loop unchanged. -/
theorem markRoleNotInSpec_id (spec : FrameworkSpec) (trs : TaskRoleStatus)
    (sp : TaskRoleSpec) (h : spec.getTaskRoleSpec trs.name = some sp) :
    (markRoleNotInSpec spec trs).1 = trs := by
  simp only [markRoleNotInSpec, h]

/-- With duplicate-free role names, lookup by a member's name returns that
member. -/
theorem find?_name_of_mem_nodup (l : List TaskRoleStatus)
    (hnd : (l.map TaskRoleStatus.name).Nodup) (x : TaskRoleStatus)
    (hx : x ∈ l) :
    l.find? (fun trs => trs.name == x.name) = some x := by
  induction l with
  | nil => cases hx
  | cons trs rest ih =>
    simp only [List.map_cons, List.nodup_cons] at hnd
    cases List.mem_cons.mp hx with
    | inl heq =>
      subst heq
      simp [List.find?]
    | inr hrest =>
      have hneq : (trs.name == x.name) = false := by
        simp only [beq_eq_false_iff_ne]
        intro hc
        exact hnd.1 (hc ▸ List.mem_map.mpr ⟨x, hrest, rfl⟩)
      simp only [List.find?, hneq]
      exact ih hnd.2 hrest

/-- C2: after syncFrameworkScale on a framework that is not completing, not
FrameworkAttemptCompleted and not FrameworkCompleted (role names without
duplicates on both sides): every spec role has a status role with at least
taskNumber task slots; every status task slot of a spec-named role at or
beyond the spec's taskNumber is deletion pending; and every task of a status
role absent from the spec is deletion pending. -/
theorem syncFrameworkScale_invariants (f : Framework) (now : Int)
    (hnc : f.isCompleting = false)
    (hac : f.status.state ≠ FrameworkState.frameworkAttemptCompleted)
    (hco : f.status.state ≠ FrameworkState.frameworkCompleted)
    (hndSpec : (f.spec.taskRoles.map TaskRoleSpec.name).Nodup)
    (hndStatus : (f.status.attemptStatus.taskRoleStatuses.map TaskRoleStatus.name).Nodup) :
    (∀ trSpec ∈ f.spec.taskRoles, ∃ trs,
        (syncFrameworkScale f now).1.getTaskRoleStatus trSpec.name = some trs
        ∧ trSpec.taskNumber ≤ trs.taskStatuses.length
        ∧ (∀ i ts, trSpec.taskNumber ≤ i → trs.taskStatuses.get? i = some ts →
            ts.deletionPending = true))
    ∧ (∀ trSpec ∈ f.spec.taskRoles,
        ∀ trs ∈ (syncFrameworkScale f now).1.status.attemptStatus.taskRoleStatuses,
          trs.name = trSpec.name →
          trSpec.taskNumber ≤ trs.taskStatuses.length
          ∧ (∀ i ts, trSpec.taskNumber ≤ i → trs.taskStatuses.get? i = some ts →
              ts.deletionPending = true))
    ∧ (∀ trs ∈ (syncFrameworkScale f now).1.status.attemptStatus.taskRoleStatuses,
        f.spec.getTaskRoleSpec trs.name = none →
        ∀ ts ∈ trs.taskStatuses, ts.deletionPending = true) := by
  have hacb : (f.status.state == FrameworkState.frameworkAttemptCompleted) = false :=
    beq_eq_false_iff_ne.mpr hac
  have hcob : (f.status.state == FrameworkState.frameworkCompleted) = false :=
    beq_eq_false_iff_ne.mpr hco
  have hroles_eq : (syncFrameworkScale f now).1.status.attemptStatus.taskRoleStatuses
      = (syncScaleDownNotInSpec f.spec
          ((f.spec.taskRoles.foldl (syncScaleSpecRoleStep now)
            (f.status.attemptStatus.taskRoleStatuses, false)).1)).1 := by
    simp only [syncFrameworkScale, hnc, hacb, hcob, Bool.false_or, Bool.or_false,
      Bool.false_eq_true, if_false]
  have hmain : ∀ trSpec ∈ f.spec.taskRoles, ∃ trs,
      (syncFrameworkScale f now).1.getTaskRoleStatus trSpec.name = some trs
      ∧ trSpec.taskNumber ≤ trs.taskStatuses.length
      ∧ (∀ i ts, trSpec.taskNumber ≤ i → trs.taskStatuses.get? i = some ts →
          ts.deletionPending = true) := by
    intro trSpec hsp
    obtain ⟨trs', hfind, hlen, htail⟩ :=
      phaseA_self now f.spec.taskRoles f.status.attemptStatus.taskRoleStatuses
        false hndSpec trSpec hsp
    have hname : trs'.name = trSpec.name := by
      simpa using List.find?_some hfind
    have hspec_lookup : ∃ sp, f.spec.getTaskRoleSpec trs'.name = some sp := by
      rw [hname]
      unfold FrameworkSpec.getTaskRoleSpec
      cases hx : f.spec.taskRoles.find? (fun x => x.name == trSpec.name) with
      | none =>
        have hcontr := List.find?_eq_none.mp hx trSpec hsp
        simp at hcontr
      | some sp => exact ⟨sp, rfl⟩
    obtain ⟨sp, hsp_eq⟩ := hspec_lookup
    have hid := markRoleNotInSpec_id f.spec trs' sp hsp_eq
    refine ⟨trs', ?_, hlen, htail⟩
    unfold Framework.getTaskRoleStatus
    rw [hroles_eq, find?_syncScaleDownNotInSpec, hfind]
    simp [hid]
  have hndF : ((syncFrameworkScale f now).1.status.attemptStatus.taskRoleStatuses.map
      TaskRoleStatus.name).Nodup := by
    rw [hroles_eq, syncScaleDownNotInSpec_fst, List.map_map]
    have hfun : (TaskRoleStatus.name ∘ fun trs => (markRoleNotInSpec f.spec trs).1)
        = TaskRoleStatus.name := by
      funext trs
      simp [Function.comp, markRoleNotInSpec_name]
    rw [hfun]
    exact phaseA_nodup now f.spec.taskRoles f.status.attemptStatus.taskRoleStatuses
      false hndStatus
  refine ⟨hmain, ?_, ?_⟩
  · intro trSpec hsp trs hmem hnameeq
    obtain ⟨trsC, hgetC, hlenC, htailC⟩ := hmain trSpec hsp
    have hx := find?_name_of_mem_nodup
      (syncFrameworkScale f now).1.status.attemptStatus.taskRoleStatuses hndF trs hmem
    rw [hnameeq] at hx
    have h2 : (syncFrameworkScale f now).1.getTaskRoleStatus trSpec.name = some trs := hx
    have heq : trsC = trs := by
      have h3 := hgetC.symm.trans h2
      injection h3
    rw [← heq]
    exact ⟨hlenC, htailC⟩
  · intro trs hmem hnone ts hts
    rw [hroles_eq, syncScaleDownNotInSpec_fst] at hmem
    obtain ⟨y, hy, hyeq⟩ := List.mem_map.mp hmem
    have hyname : trs.name = y.name := by
      rw [← hyeq]
      exact markRoleNotInSpec_name f.spec y
    have hynone : f.spec.getTaskRoleSpec y.name = none := by
      rw [← hyname]
      exact hnone
    have hall := markRoleNotInSpec_all f.spec y hynone
    rw [← hyeq] at hts
    exact hall ts hts

/-- C2 witness: the scale invariants applied to the concrete framework whose
worker role is scaled down to one task and whose old role left the spec. -/
theorem syncFrameworkScale_invariants_witness :
    (∀ trSpec ∈ exF2.spec.taskRoles, ∃ trs,
        (syncFrameworkScale exF2 3).1.getTaskRoleStatus trSpec.name = some trs
        ∧ trSpec.taskNumber ≤ trs.taskStatuses.length
        ∧ (∀ i ts, trSpec.taskNumber ≤ i → trs.taskStatuses.get? i = some ts →
            ts.deletionPending = true))
    ∧ (∀ trSpec ∈ exF2.spec.taskRoles,
        ∀ trs ∈ (syncFrameworkScale exF2 3).1.status.attemptStatus.taskRoleStatuses,
          trs.name = trSpec.name →
          trSpec.taskNumber ≤ trs.taskStatuses.length
          ∧ (∀ i ts, trSpec.taskNumber ≤ i → trs.taskStatuses.get? i = some ts →
              ts.deletionPending = true))
    ∧ (∀ trs ∈ (syncFrameworkScale exF2 3).1.status.attemptStatus.taskRoleStatuses,
        exF2.spec.getTaskRoleSpec trs.name = none →
        ∀ ts ∈ trs.taskStatuses, ts.deletionPending = true) :=
  syncFrameworkScale_invariants exF2 3 rfl (by decide) (by decide)
    (by decide) (by decide)

end FrameworkControllerProof
